import Mathlib

/-!
# nancy: command-line configuration (`configuration/parse.go`)

A shallow embedding of `configuration.Parse` and `getCVEExcludesFromFile`, together with the
parts of the Go standard library they drive (`flag`, `bufio.Scanner`, `strings.TrimSpace`, the
regular expression `#.*$`), and the properties of the resolver checked against that embedding.

Conventions of the embedding.

* Go strings are Lean `String`s, that is, valid UTF-8 text; the byte length of a piece of text is
  the sum of `Char.utf8Size` over its characters.
* `Parse` reads and writes process-wide state: it reads `os.Args`, defines flags on
  `flag.CommandLine`, parses against every flag defined there and reads `flag.Args()`.  That
  state, with the flags the rest of the program has defined, is an explicit argument, and the
  state left behind is part of the outcome.
* A call either returns `(Configuration, error)`, or ends the process (`os.Exit`), or panics.
* The file system is an explicit argument giving the results of `os.Stat` and `os.Open`.
* `types.CveListFlag` is declared outside `configuration/parse.go`; its `Set` method is an
  argument (`cveSet`) of everything that depends on it, and the flag is taken not to be a
  boolean flag.
* The behaviour of the standard library is that of Go 1.15 and later (`FlagSet.Parse` exits
  with status 0 on `flag.ErrHelp`, with status 2 before).
-/

namespace Nancy

/-! ## Data model -/

/-- Modelled from the spec: the type `types.CveListFlag`, declared outside
`configuration/parse.go` (the "ordered sequence of string" `cveExclusions`); `parse.go` reads
and appends to its field `Cves`. -/
structure CveListFlag where
  Cves : List String := []
deriving DecidableEq, Repr

/-- The struct `Configuration`; the defaults of the fields are Go's zero values, so that `{}`
is `Configuration{}`. -/
structure Configuration where
  UseStdIn : Bool := false
  Help : Bool := false
  NoColor : Bool := false
  Quiet : Bool := false
  Version : Bool := false
  CveList : CveListFlag := {}
  IQ : Bool := false
  Path : String := ""
  User : String := ""
  Token : String := ""
  Stage : String := ""
  Application : String := ""
  Server : String := ""
deriving DecidableEq, Repr

/-- The `Set` method of `types.CveListFlag`: the new value of the flag, or `none` when `Set`
returns an error. -/
abbrev CveSet := String → CveListFlag → Option CveListFlag

/-! ## Text: `strings.TrimSpace`, the regular expression `unixComments` -/

/-- The predicate `unicode.IsSpace`. -/
def isSpace (c : Char) : Bool :=
  let n := c.toNat
  n == 0x09 || n == 0x0A || n == 0x0B || n == 0x0C || n == 0x0D || n == 0x20 ||
  n == 0x85 || n == 0xA0 || n == 0x1680 || (0x2000 ≤ n && n ≤ 0x200A) ||
  n == 0x2028 || n == 0x2029 || n == 0x202F || n == 0x205F || n == 0x3000

/-- Remove the trailing characters that satisfy `p`. -/
def dropTrailing (p : Char → Bool) (l : List Char) : List Char :=
  ((l.reverse).dropWhile p).reverse

/-- The function `strings.TrimSpace`: the text without its leading and trailing white space. -/
def TrimSpace (s : String) : String :=
  ⟨dropTrailing isSpace (s.data.dropWhile isSpace)⟩

/-- The effect of `unixComments.ReplaceAllString(·, "")` on characters, `unixComments` being the
regular expression `#.*$`: the leftmost match begins at the first `#` from which the end of the
text is reached without a line feed (`.` does not match a line feed, `$` matches only at the end
of the text), and it extends to the end of the text. -/
def unixComments.stripChars : List Char → List Char
  | [] => []
  | c :: cs => if c = '#' ∧ '\n' ∉ cs then [] else c :: unixComments.stripChars cs

/-- The call `unixComments.ReplaceAllString(line, "")`. -/
def unixComments.strip (line : String) : String :=
  ⟨unixComments.stripChars line.data⟩

/-! ## Files: `os.Stat`, `os.Open`, `bufio.Scanner` -/

/-- What `os.Stat` returns: a file description (`fi != nil`, `err == nil`), with the answer of
`fi.IsDir()`, or an error (`fi == nil`, `err != nil`), with the answer of `os.IsNotExist(err)`. -/
inductive StatResult where
  | info (isDir : Bool)
  | error (notExist : Bool)
deriving DecidableEq, Repr

/-- An opened file: the text its successive reads deliver, and the error that ends the reads
(`none` stands for `io.EOF`, the regular end of the file). -/
structure File where
  data : List Char
  readErr : Option String := none
deriving DecidableEq, Repr

/-- The file system as `getCVEExcludesFromFile` sees it: `os.Stat` and `os.Open`. -/
structure FileSystem where
  stat : String → StatResult
  openFile : String → Except String File

/-- The constant `bufio.MaxScanTokenSize`. -/
def MaxScanTokenSize : Nat := 64 * 1024

/-- The error `bufio.ErrTooLong`. -/
def ErrTooLong : String := "bufio.Scanner: token too long"

/-- Length in bytes of a piece of text. -/
def byteLen (l : List Char) : Nat := (l.map Char.utf8Size).sum

/-- The helper `dropCR` of `bufio.ScanLines`: drop one trailing carriage return. -/
def dropCR (l : List Char) : List Char :=
  if l.getLast? = some '\r' then l.dropLast else l

/-- The outcome of the loop `for scanner.Scan() { ... scanner.Text() ... }` followed by
`scanner.Err()`: the lines handed to the loop body and the final error. -/
structure ScanResult where
  lines : List String
  err : Option String
deriving DecidableEq, Repr

/-- A `bufio.Scanner` with the default split function `bufio.ScanLines` and the default buffer,
run to the end over the unread text; `cur` is the part of the current line already buffered.
A line feed ends a line.  A line that reaches `MaxScanTokenSize` bytes without a line feed fills
the buffer: the scan stops with `ErrTooLong`.  At the end of the data (the end of the file or a
failed read) a non-empty unterminated last line is still delivered, and the error is the one of
the read. -/
def Scanner.scan (readErr : Option String) : List Char → List Char → ScanResult
  | [], cur => ⟨if cur = [] then [] else [⟨dropCR cur⟩], readErr⟩
  | c :: cs, cur =>
    if c = '\n' then
      let r := Scanner.scan readErr cs []
      ⟨⟨dropCR cur⟩ :: r.lines, r.err⟩
    else if MaxScanTokenSize ≤ byteLen (cur ++ [c]) then ⟨[], some ErrTooLong⟩
    else Scanner.scan readErr cs (cur ++ [c])

/-- The scanner `bufio.NewScanner(file)` run to the end. -/
def Scanner.run (file : File) : ScanResult :=
  Scanner.scan file.readErr file.data []

/-- The body of the scan loop of `getCVEExcludesFromFile` for one line. -/
def addLine (config : Configuration) (line : String) : Configuration :=
  let line := unixComments.strip line
  let line := TrimSpace line
  if line.length > 0 then
    { config with CveList := { Cves := config.CveList.Cves ++ [line] } }
  else config

/-- The function `getCVEExcludesFromFile`: the configuration it leaves behind and the error it
returns. -/
def getCVEExcludesFromFile (fs : FileSystem) (config : Configuration)
    (excludeVulnerabilityFilePath : String) : Configuration × Option String :=
  match fs.stat excludeVulnerabilityFilePath with
  | .info true => (config, none)
  | .error true => (config, none)
  | _ =>
    match fs.openFile excludeVulnerabilityFilePath with
    | .error err => (config, some err)
    | .ok file =>
      let r := Scanner.run file
      (r.lines.foldl addLine config, r.err)

/-! ## The `flag` package -/

/-- The function `strconv.ParseBool`, which `flag` uses for boolean flags. -/
def ParseBool (s : String) : Option Bool :=
  if s ∈ ["1", "t", "T", "TRUE", "true", "True"] then some true
  else if s ∈ ["0", "f", "F", "FALSE", "false", "False"] then some false
  else none

/-- A defined flag, bound to a variable inside the state `σ`: whether its value is a boolean
flag (`IsBoolFlag`), and its `Set` method (`none` when `Set` returns an error). -/
structure Flag (σ : Type) where
  isBool : Bool
  set : String → σ → Option σ

/-- How `FlagSet.parseOne` reads one argument. -/
inductive Token where
  | positional
  | terminator
  | malformed
  | flag (name : String) (value : Option String)
deriving DecidableEq, Repr

/-- Cut a flag name at its first `=`, as the loop of `parseOne` does. -/
def cutEq : List Char → List Char × Option (List Char)
  | [] => ([], none)
  | c :: cs => if c = '=' then ([], some cs) else ((c :: (cutEq cs).1), (cutEq cs).2)

/-- The lexical part of `FlagSet.parseOne`: an argument shorter than two characters or not
starting with `-` is not a flag; `--` ends the flags; one or two dashes followed by nothing, by
`-` or by `=` is bad flag syntax; otherwise the argument is a flag, with a value when the name
is followed by `=`. -/
def Token.ofString (s : String) : Token :=
  match s.data with
  | a :: c :: cs =>
    if a ≠ '-' then .positional
    else if c = '-' ∧ cs = [] then .terminator
    else
      match (if c = '-' then cs else c :: cs) with
      | [] => .malformed
      | n :: tail =>
        if n = '-' ∨ n = '=' then .malformed
        else
          match cutEq tail with
          | (nm, none) => .flag ⟨n :: nm⟩ none
          | (nm, some v) => .flag ⟨n :: nm⟩ (some ⟨v⟩)
  | _ => .positional

/-- The errors of `FlagSet.parseOne`. -/
inductive FlagError where
  | malformed
  | help
  | notDefined
  | needsArgument
  | invalidBoolean
  | invalidValue
deriving DecidableEq, Repr

/-- The result of `FlagSet.Parse` before its error handling: the variables the flags are bound
to and the arguments left over (`FlagSet.Args()`), or the error of `parseOne`. -/
inductive ParseResult (σ : Type) where
  | ok (vars : σ) (rest : List String)
  | error (e : FlagError)

/-- The loop of `FlagSet.Parse` over `FlagSet.parseOne`, for the flags `formal`, written as
one recursion on the arguments: each round reads the first argument, stops at an argument that
is not a flag (left in place) or at `--` (removed), fails on bad syntax or on a name that is not
defined (`-help` and `-h` give `ErrHelp` then), and otherwise sets the flag: a boolean flag
from its `=value` or from `true`, any other flag from its `=value` or from the next argument,
which it consumes. -/
def FlagSet.parse {σ : Type} (formal : String → Option (Flag σ)) :
    List String → σ → ParseResult σ
  | [], v => .ok v []
  | s :: rest, v =>
    match Token.ofString s with
    | .positional => .ok v (s :: rest)
    | .terminator => .ok v rest
    | .malformed => .error .malformed
    | .flag name value =>
      match formal name with
      | none => if name = "help" ∨ name = "h" then .error .help else .error .notDefined
      | some f =>
        if f.isBool then
          match f.set (value.getD "true") v with
          | none => .error .invalidBoolean
          | some v1 => FlagSet.parse formal rest v1
        else
          match value with
          | some val =>
            match f.set val v with
            | none => .error .invalidValue
            | some v1 => FlagSet.parse formal rest v1
          | none =>
            match rest with
            | [] => .error .needsArgument
            | val :: rest1 =>
              match f.set val v with
              | none => .error .invalidValue
              | some v1 => FlagSet.parse formal rest1 v1

/-! ## Process-wide state and outcomes -/

/-- The process-wide flag set `flag.CommandLine` as `Parse` finds it: the flags the rest of the
program has defined on it (`flags`, by name), bound to variables of that program (`vars`, of
some type `φ`); whether an earlier call of `Parse` has defined the seven flags of `Parse` on it
(`defined`); and the arguments left over by its latest parse (`args`, what `flag.Args()`
returns). -/
structure CommandLine (φ : Type) where
  flags : String → Option (Flag φ)
  vars : φ
  defined : Bool
  args : List String

/-- The state of `flag.CommandLine` when a process that defines no other flag starts: no flag
defined, nothing parsed. -/
def CommandLine.initial : CommandLine Unit :=
  { flags := fun _ => none, vars := (), defined := false, args := [] }

/-- The method `FlagSet.Var` on `flag.CommandLine`, through which `flag.BoolVar`,
`flag.StringVar` and `flag.Var` define one of the flags of `Parse`: it panics (`none`) when the
name is already defined.  The seven names of `Parse` differ from one another, so a name is
already defined exactly when an earlier call of `Parse` defined it or when it is the name of a
flag of the rest of the program.  The definitions of the running call are recorded together, at
the end of `defineFlags`. -/
def CommandLine.Var {φ : Type} (cl : CommandLine φ) (name : String) : Option (CommandLine φ) :=
  if cl.defined = true ∨ (cl.flags name).isSome = true then none else some cl

/-- How a call of `Parse` ends: it returns `(config, err)`, leaving `flag.CommandLine` in the
given state; or the process exits with a status (`os.Exit`); or the call panics. -/
inductive Outcome (φ : Type) where
  | returned (config : Configuration) (err : Option String) (commandLine : CommandLine φ)
  | exit (code : Nat)
  | panic

/-! ## `Parse` -/

/-- The variables the flags of `flag.CommandLine` are bound to in `Parse`: the fields of
`config` and the two locals. -/
structure PrimaryVars where
  config : Configuration
  excludeVulnerabilityFilePath : String
  noColorDeprecated : Bool
deriving DecidableEq, Repr

/-- The seven definitions `flag.BoolVar`, `flag.Var`, `flag.StringVar` of `Parse`, in order. -/
def defineFlags {φ : Type} (cl : CommandLine φ) : Option (CommandLine φ) := do
  let cl ← cl.Var "help"
  let cl ← cl.Var "no-color"
  let cl ← cl.Var "noColor"
  let cl ← cl.Var "quiet"
  let cl ← cl.Var "version"
  let cl ← cl.Var "exclude-vulnerability"
  let cl ← cl.Var "exclude-vulnerability-file"
  some { cl with defined := true }

/-- The flags `Parse` defines on `flag.CommandLine`, by name. -/
def commandLineFlags (cveSet : CveSet) (name : String) : Option (Flag PrimaryVars) :=
  if name = "help" then
    some ⟨true, fun s v =>
      (ParseBool s).map fun b => { v with config := { v.config with Help := b } }⟩
  else if name = "no-color" then
    some ⟨true, fun s v =>
      (ParseBool s).map fun b => { v with config := { v.config with NoColor := b } }⟩
  else if name = "noColor" then
    some ⟨true, fun s v => (ParseBool s).map fun b => { v with noColorDeprecated := b }⟩
  else if name = "quiet" then
    some ⟨true, fun s v =>
      (ParseBool s).map fun b => { v with config := { v.config with Quiet := b } }⟩
  else if name = "version" then
    some ⟨true, fun s v =>
      (ParseBool s).map fun b => { v with config := { v.config with Version := b } }⟩
  else if name = "exclude-vulnerability" then
    some ⟨false, fun s v =>
      (cveSet s v.config.CveList).map fun l => { v with config := { v.config with CveList := l } }⟩
  else if name = "exclude-vulnerability-file" then
    some ⟨false, fun s v => some { v with excludeVulnerabilityFilePath := s }⟩
  else none

/-- The flags of the flag set `iqCommand`, by name; they are bound to fields of `config`. -/
def iqCommand (name : String) : Option (Flag Configuration) :=
  if name = "user" then some ⟨false, fun s c => some { c with User := s }⟩
  else if name = "token" then some ⟨false, fun s c => some { c with Token := s }⟩
  else if name = "server-url" then some ⟨false, fun s c => some { c with Server := s }⟩
  else if name = "application" then some ⟨false, fun s c => some { c with Application := s }⟩
  else if name = "stage" then some ⟨false, fun s c => some { c with Stage := s }⟩
  else none

/-- The configuration once the flags are defined: defining a flag stores its default in the
variable it is bound to, so the five `iqCommand.StringVar` calls leave their defaults in
`config` (the defaults of the boolean flags are the zero values already there). -/
def definedConfig : Configuration :=
  { User := "admin", Token := "admin123", Server := "http://localhost:8070",
    Application := "", Stage := "develop" }

/-- The flags found on `flag.CommandLine` (the map `formal` of the flag set) once `Parse` has
defined its own: the seven flags of `Parse`, bound to the variables of `Parse`, and the flags of
the rest of the program, bound to its variables. -/
def CommandLine.formal {φ : Type} (cveSet : CveSet) (cl : CommandLine φ) (name : String) :
    Option (Flag (PrimaryVars × φ)) :=
  match commandLineFlags cveSet name with
  | some f => some ⟨f.isBool, fun s v => (f.set s v.1).map fun p => (p, v.2)⟩
  | none =>
    match cl.flags name with
    | some f => some ⟨f.isBool, fun s v => (f.set s v.2).map fun q => (v.1, q)⟩
    | none => none

/-- The function `Parse(args)`, run in a process whose arguments are `osArgs` (`os.Args`), whose
flag set `flag.CommandLine` is in state `cl` and whose file system is `fs`.

`flag.CommandLine` and `iqCommand` both handle errors with `flag.ExitOnError`, and `Parse` sets
`flag.Usage` to a function that ends with `os.Exit(2)`: a parse error of `flag.CommandLine` exits
with status 2 inside `flag.Usage`; a parse error of `iqCommand` prints the usage of `iqCommand`
and exits in `FlagSet.Parse`, with status 0 for `flag.ErrHelp` and 2 otherwise. -/
def Parse {φ : Type} (cveSet : CveSet) (osArgs : List String) (cl : CommandLine φ)
    (fs : FileSystem) (args : List String) : Outcome φ :=
  match defineFlags cl with
  | none => .panic
  | some cl =>
    let config := definedConfig
    if osArgs.length > 1 ∧ osArgs[1]? = some "iq" then
      match FlagSet.parse iqCommand (osArgs.drop 2) config with
      | .error e => .exit (if e = .help then 0 else 2)
      | .ok config _ => .returned { config with IQ := true, UseStdIn := true } none cl
    else
      let indexed : Option Configuration :=
        if cl.args.length = 0 then some { config with UseStdIn := true }
        else args.getLast?.map fun last => { config with Path := last }
      match indexed with
      | none => .panic
      | some config =>
        match FlagSet.parse (cl.formal cveSet) args
            (⟨config, "./.nancy-ignore", false⟩, cl.vars) with
        | .error _ => .exit 2
        | .ok vars rest =>
          let cl := { cl with vars := vars.2, args := rest }
          let config :=
            if vars.1.noColorDeprecated = true then
              { vars.1.config with NoColor := vars.1.noColorDeprecated }
            else vars.1.config
          let r := getCVEExcludesFromFile fs config vars.1.excludeVulnerabilityFilePath
          .returned r.1 r.2 cl

/-! ## A value for the parts declared elsewhere, used in the worked examples -/

/-- Split a text at its commas. -/
def splitComma : List Char → List (List Char)
  | [] => [[]]
  | c :: cs =>
    if c = ',' then [] :: splitComma cs
    else
      match splitComma cs with
      | [] => [[c]]
      | w :: ws => (c :: w) :: ws

/-- Modelled from the spec: the method `Set` of `types.CveListFlag`, declared outside
`configuration/parse.go`.  The flag `exclude-vulnerability` is "repeatable", each occurrence
being a "comma-separated ... list of CVE strings": every occurrence adds its comma-separated
entries to `Cves`, and never fails. -/
def CveListFlag.Set : CveSet :=
  fun value cve => some { Cves := cve.Cves ++ (splitComma value.data).map String.mk }

/-- The state of `flag.CommandLine` when a process starts in which other code has defined one
boolean flag, `v`, bound to a boolean variable. -/
def verboseCommandLine : CommandLine Bool :=
  { flags := fun name =>
      if name = "v" then some ⟨true, fun s _ => ParseBool s⟩ else none,
    vars := false, defined := false, args := [] }

/-- A file system without an exclusion file: every path is reported missing. -/
def FileSystem.empty : FileSystem :=
  { stat := fun _ => .error true, openFile := fun _ => .error "no such file or directory" }

/-- A file system with one regular file. -/
def FileSystem.single (path : String) (file : File) : FileSystem :=
  { stat := fun p => if p = path then .info false else .error true,
    openFile := fun p => if p = path then .ok file else .error "no such file or directory" }

/-! ## Specification-side notions -/

/-- The names of the flags `Parse` defines on `flag.CommandLine`. -/
def flagNames : List String :=
  ["help", "no-color", "noColor", "quiet", "version", "exclude-vulnerability",
    "exclude-vulnerability-file"]

/-- None of the flags of `Parse` is defined yet on `flag.CommandLine`: no earlier call of
`Parse` in the process, and no flag of the rest of the program with one of the seven names. -/
def CommandLine.Fresh {φ : Type} (cl : CommandLine φ) : Prop :=
  cl.defined = false ∧ ∀ n ∈ flagNames, (cl.flags n).isNone = true

/-- The process runs the subcommand: `os.Args[1]` is `iq`. -/
def IQMode (osArgs : List String) : Prop := osArgs.length > 1 ∧ osArgs[1]? = some "iq"

instance {φ : Type} (cl : CommandLine φ) : Decidable cl.Fresh :=
  inferInstanceAs (Decidable (cl.defined = false ∧ ∀ n ∈ flagNames, (cl.flags n).isNone = true))

instance (osArgs : List String) : Decidable (IQMode osArgs) :=
  inferInstanceAs (Decidable (osArgs.length > 1 ∧ osArgs[1]? = some "iq"))

/-- The variables of the primary flags when `flag.CommandLine.Parse` starts, in a process in
which `flag.Args()` was empty. -/
def startVars : PrimaryVars :=
  ⟨{ definedConfig with UseStdIn := true }, "./.nancy-ignore", false⟩

/-- One or two dashes. -/
def dashes (two : Bool) : String := if two then "--" else "-"

/-- A flag as written on a command line, in one of the three forms of the `flag` package:
`-name`, `-name=value`, `-name value`; one or two dashes may be used. -/
inductive Written where
  | bare (two : Bool) (name : String)
  | joined (two : Bool) (name value : String)
  | spaced (two : Bool) (name value : String)
deriving DecidableEq, Repr

/-- The name of a written flag. -/
def Written.name : Written → String
  | .bare _ name => name
  | .joined _ name _ => name
  | .spaced _ name _ => name

/-- The arguments that make up a written flag. -/
def Written.tokens : Written → List String
  | .bare two name => [dashes two ++ name]
  | .joined two name value => [dashes two ++ name ++ "=" ++ value]
  | .spaced two name value => [dashes two ++ name, value]

/-- The effect of a written flag on the variables, for the flags `formal`; `none` when the flag
is not recognised, when its form does not suit it (`-name` is for boolean flags, `-name value`
for the others) or when its value is not accepted. -/
def Written.apply {σ : Type} (formal : String → Option (Flag σ)) (w : Written) (v : σ) :
    Option σ :=
  match w with
  | .bare _ name =>
    match formal name with
    | some f => if f.isBool then f.set "true" v else none
    | none => none
  | .joined _ name value =>
    match formal name with
    | some f => f.set value v
    | none => none
  | .spaced _ name value =>
    match formal name with
    | some f => if f.isBool then none else f.set value v
    | none => none

/-- The effect of a sequence of written flags, from left to right. -/
def applyAll {σ : Type} (formal : String → Option (Flag σ)) : List Written → σ → Option σ
  | [], v => some v
  | w :: ws, v =>
    match w.apply formal v with
    | some v1 => applyAll formal ws v1
    | none => none

/-- An argument that does not have the form of a flag: shorter than two characters, or not
starting with a dash. -/
def NotFlag (s : String) : Prop := s.length < 2 ∨ s.data.head? ≠ some '-'

/-- The part of an argument sequence after its flags, `tail`, and the positional arguments
`rest` it leaves: nothing; or arguments of which the first is not a flag, all positional; or
the terminator `--` followed by the positional arguments. -/
def Positionals (tail rest : List String) : Prop :=
  (tail = [] ∧ rest = []) ∨ (∃ s t, tail = s :: t ∧ NotFlag s ∧ rest = tail) ∨
    tail = "--" :: rest

/-- The text that attaches a value to the name of a flag: `=value`, or nothing. -/
def attached : Option String → String
  | none => ""
  | some v => "=" ++ v

/-- A name a flag can be written with: not empty, not starting with `-` or `=`, without `=`. -/
def ValidName (name : String) : Prop :=
  ∃ n nm, name.data = n :: nm ∧ n ≠ '-' ∧ n ≠ '=' ∧ '=' ∉ nm

/-- An argument sequence that begins with recognised, well-formed flags whose values are
accepted, for the flags `formal` starting from the variables `v`, and goes on with positional
arguments: the flags end at the first argument that is not a flag or at `--`, and nothing is
asked of the arguments after that point. -/
def WellFormed {σ : Type} (formal : String → Option (Flag σ)) (v : σ) (args : List String) :
    Prop :=
  ∃ ws tail rest, args = ws.flatMap Written.tokens ++ tail ∧ (∀ w ∈ ws, ValidName w.name) ∧
    (applyAll formal ws v).isSome ∧ Positionals tail rest

/-- Every defined flag has a name a flag can have. -/
def ValidNames {σ : Type} (formal : String → Option (Flag σ)) : Prop :=
  ∀ name f, formal name = some f → ValidName name

/-- The configuration after the step of `Parse` for the deprecated flag `noColor`. -/
def afterDeprecation (vars : PrimaryVars) : Configuration :=
  if vars.noColorDeprecated = true then { vars.config with NoColor := true } else vars.config

/-- The lines of a text: its pieces between line feeds. -/
def textLines : List Char → List (List Char)
  | [] => [[]]
  | c :: cs =>
    if c = '\n' then [] :: textLines cs
    else
      match textLines cs with
      | [] => [[c]]
      | l :: ls => (c :: l) :: ls

/-- The value of a line of the exclusion file: the line without everything from its first `#`
onward, then without leading and trailing white space. -/
def lineValue (l : List Char) : String :=
  TrimSpace ⟨l.takeWhile (fun c => c != '#')⟩

/-- The entries of an exclusion file: the values of its lines, in order, the empty ones left
out. -/
def fileEntries (data : List Char) : List String :=
  ((textLines data).map lineValue).filter (fun s => s != "")

/-- The entries the scan loop keeps from the lines the scanner hands it. -/
def keptEntries (lines : List String) : List String :=
  (lines.map (fun l => TrimSpace (unixComments.strip l))).filter (fun s => s != "")

/-- The fields of the configuration no primary flag is bound to. -/
def untouchedByPrimary (v : PrimaryVars) :
    Bool × Bool × String × String × String × String × String × String :=
  (v.config.UseStdIn, v.config.IQ, v.config.Path, v.config.User, v.config.Token, v.config.Stage,
    v.config.Application, v.config.Server)

/-- The fields of the configuration no flag of `iqCommand` is bound to. -/
def untouchedByIQ (c : Configuration) :
    Bool × Bool × Bool × Bool × Bool × CveListFlag × Bool × String :=
  (c.UseStdIn, c.Help, c.NoColor, c.Quiet, c.Version, c.CveList, c.IQ, c.Path)

/-- An exclusion file whose first line is `n` bytes long: `n` letters `a`, a line feed, then
the line `D`. -/
def longFile (n : Nat) : File :=
  { data := List.replicate n 'a' ++ ['\n', 'D', '\n'] }

/-- The flags of `iqCommand`. -/
inductive IQFlag where
  | user
  | token
  | serverUrl
  | application
  | stage
deriving DecidableEq, Repr

/-- The name of a flag of `iqCommand`. -/
def IQFlag.name : IQFlag → String
  | .user => "user"
  | .token => "token"
  | .serverUrl => "server-url"
  | .application => "application"
  | .stage => "stage"

/-- The field of the configuration a flag of `iqCommand` is bound to. -/
def IQFlag.field (f : IQFlag) (c : Configuration) : String :=
  match f with
  | .user => c.User
  | .token => c.Token
  | .serverUrl => c.Server
  | .application => c.Application
  | .stage => c.Stage

/-- A flag of `iqCommand` supplied on the command line with a value, written with one or two
dashes, as `-name=value` (`joined`) or as `-name value`. -/
structure IQOption where
  flag : IQFlag
  value : String
  two : Bool
  joined : Bool
deriving DecidableEq, Repr

/-- The way a supplied flag of `iqCommand` is written. -/
def IQOption.written (o : IQOption) : Written :=
  if o.joined then .joined o.two o.flag.name o.value else .spaced o.two o.flag.name o.value

/-- The value supplied for a flag by a sequence of options: the value of the last option for
that flag, and the default when there is none. -/
def supplied (f : IQFlag) (dflt : String) (os : List IQOption) : String :=
  match (os.filter (fun o => o.flag = f)).getLast? with
  | some o => o.value
  | none => dflt

/-- The configuration once a flag of `iqCommand` has stored a value. -/
def IQFlag.store (f : IQFlag) (value : String) (c : Configuration) : Configuration :=
  match f with
  | .user => { c with User := value }
  | .token => { c with Token := value }
  | .serverUrl => { c with Server := value }
  | .application => { c with Application := value }
  | .stage => { c with Stage := value }

/-- The configuration once a sequence of options of `iqCommand` has been stored, in order. -/
def storeAll (os : List IQOption) (c : Configuration) : Configuration :=
  os.foldl (fun c o => o.flag.store o.value c) c

/-- The boolean flags `Parse` defines on `flag.CommandLine`. -/
inductive BoolFlag where
  | help
  | noColor
  | noColorDeprecated
  | quiet
  | version
deriving DecidableEq, Repr

/-- The name of a boolean flag: `noColor` is the flag `no-color`, and `noColorDeprecated` the
deprecated flag `noColor`. -/
def BoolFlag.name : BoolFlag → String
  | .help => "help"
  | .noColor => "no-color"
  | .noColorDeprecated => "noColor"
  | .quiet => "quiet"
  | .version => "version"

/-- The six ways of writing a boolean value that the `flag` package accepts. -/
inductive Spelling where
  | digit
  | letter
  | capitalLetter
  | lower
  | upper
  | capitalized
deriving DecidableEq, Repr

/-- The text of a boolean value in a spelling. -/
def Spelling.text : Spelling → Bool → String
  | .digit, true => "1"
  | .digit, false => "0"
  | .letter, true => "t"
  | .letter, false => "f"
  | .capitalLetter, true => "T"
  | .capitalLetter, false => "F"
  | .lower, true => "true"
  | .lower, false => "false"
  | .upper, true => "TRUE"
  | .upper, false => "FALSE"
  | .capitalized, true => "True"
  | .capitalized, false => "False"

/-- A primary flag supplied on the command line, written with one or two dashes: a boolean flag
alone (`-name`, which sets it to true) or with a boolean value (`-name=value`); an exclusion
list or the path of the exclusion file, as `-name=value` (`joined`) or as `-name value`. -/
inductive PrimaryOption where
  | switch (two : Bool) (flag : BoolFlag)
  | assign (two : Bool) (flag : BoolFlag) (value : Bool) (spelling : Spelling)
  | exclude (two joined : Bool) (value : String)
  | excludeFile (two joined : Bool) (path : String)
deriving DecidableEq, Repr

/-- The way a supplied primary flag is written. -/
def PrimaryOption.written : PrimaryOption → Written
  | .switch two flag => .bare two flag.name
  | .assign two flag value spelling => .joined two flag.name (spelling.text value)
  | .exclude two joined value =>
    if joined then .joined two "exclude-vulnerability" value
    else .spaced two "exclude-vulnerability" value
  | .excludeFile two joined path =>
    if joined then .joined two "exclude-vulnerability-file" path
    else .spaced two "exclude-vulnerability-file" path

/-- The value an option gives to a boolean flag, when it is an option for that flag. -/
def PrimaryOption.sets (f : BoolFlag) : PrimaryOption → Option Bool
  | .switch _ g => if g = f then some true else none
  | .assign _ g value _ => if g = f then some value else none
  | .exclude _ _ _ => none
  | .excludeFile _ _ _ => none

/-- The value a sequence of options gives to a boolean flag: the value of the last option for
that flag, and the default `false` when there is none. -/
def setting (f : BoolFlag) (os : List PrimaryOption) : Bool :=
  ((os.filterMap (PrimaryOption.sets f)).getLast?).getD false

/-- The exclusion list the options `exclude-vulnerability` of a sequence build from the list
`l`, by the `Set` method of the flag; `none` when `Set` refuses one of them. -/
def exclusions (cveSet : CveSet) : List PrimaryOption → CveListFlag → Option CveListFlag
  | [], l => some l
  | .exclude _ _ value :: os, l =>
    match cveSet value l with
    | some l1 => exclusions cveSet os l1
    | none => none
  | .switch _ _ :: os, l => exclusions cveSet os l
  | .assign _ _ _ _ :: os, l => exclusions cveSet os l
  | .excludeFile _ _ _ :: os, l => exclusions cveSet os l

/-- The variables of `Parse` once a boolean flag has stored a value. -/
def BoolFlag.store (f : BoolFlag) (b : Bool) (v : PrimaryVars) : PrimaryVars :=
  match f with
  | .help => { v with config := { v.config with Help := b } }
  | .noColor => { v with config := { v.config with NoColor := b } }
  | .noColorDeprecated => { v with noColorDeprecated := b }
  | .quiet => { v with config := { v.config with Quiet := b } }
  | .version => { v with config := { v.config with Version := b } }

/-- The variable of `Parse` a boolean flag is bound to. -/
def BoolFlag.field (f : BoolFlag) (v : PrimaryVars) : Bool :=
  match f with
  | .help => v.config.Help
  | .noColor => v.config.NoColor
  | .noColorDeprecated => v.noColorDeprecated
  | .quiet => v.config.Quiet
  | .version => v.config.Version

/-- The variables of `Parse` once an option is stored, for the `Set` method `cveSet`. -/
def PrimaryOption.store (cveSet : CveSet) (o : PrimaryOption) (v : PrimaryVars) :
    Option PrimaryVars :=
  match o with
  | .switch _ flag => some (flag.store true v)
  | .assign _ flag value _ => some (flag.store value v)
  | .exclude _ _ value =>
    (cveSet value v.config.CveList).map fun l => { v with config := { v.config with CveList := l } }
  | .excludeFile _ _ path => some { v with excludeVulnerabilityFilePath := path }

/-! ## Lemmas -/

theorem cutEq_append (nm v : List Char) (h : '=' ∉ nm) : cutEq (nm ++ '=' :: v) = (nm, some v) := by
  induction nm with
  | nil => simp [cutEq]
  | cons c cs ih =>
    simp at h
    have hc : c ≠ '=' := fun e => h.1 e.symm
    simp [cutEq, hc, ih h.2]

theorem cutEq_self (nm : List Char) (h : '=' ∉ nm) : cutEq nm = (nm, none) := by
  induction nm with
  | nil => simp [cutEq]
  | cons c cs ih =>
    simp at h
    have hc : c ≠ '=' := fun e => h.1 e.symm
    simp [cutEq, hc, ih h.2]

theorem cutEq_spec (l : List Char) :
    '=' ∉ (cutEq l).1 ∧ l = (cutEq l).1 ++ (match (cutEq l).2 with | none => [] | some v => '=' :: v) := by
  induction l with
  | nil => simp [cutEq]
  | cons c cs ih =>
    by_cases hc : c = '='
    · simp [cutEq, hc]
    · simp only [cutEq, hc, if_false]
      refine ⟨?_, ?_⟩
      · simp; exact ⟨fun e => hc e.symm, ih.1⟩
      · simp; exact ih.2

theorem dashes_data (two : Bool) : (dashes two).data = if two then ['-', '-'] else ['-'] := by
  cases two <;> rfl

theorem ofString_bare (two : Bool) (name : String) (hn : ValidName name) :
    Token.ofString (dashes two ++ name) = .flag name none := by
  obtain ⟨n, nm, hd, h1, h2, h3⟩ := hn
  have hname : name = ⟨n :: nm⟩ := String.ext hd
  have hcut := cutEq_self nm h3
  cases two <;>
    simp [Token.ofString, String.data_append, dashes_data, hd, h1, h2, hcut, hname]

theorem ofString_joined (two : Bool) (name value : String) (hn : ValidName name) :
    Token.ofString (dashes two ++ name ++ "=" ++ value) = .flag name (some value) := by
  obtain ⟨n, nm, hd, h1, h2, h3⟩ := hn
  have hname : name = ⟨n :: nm⟩ := String.ext hd
  have hcut := cutEq_append nm value.data h3
  have he : "=".data = ['='] := rfl
  cases two <;>
    simp [Token.ofString, String.data_append, dashes_data, hd, h1, h2, hcut, hname, he]

theorem flag_of_cut (name : String) (value : Option String) (n : Char) (tail : List Char)
    (hn1 : n ≠ '-') (hn2 : n ≠ '=')
    (hk : (match cutEq tail with
          | (nm, none) => Token.flag ⟨n :: nm⟩ none
          | (nm, some v) => Token.flag ⟨n :: nm⟩ (some ⟨v⟩)) = Token.flag name value) :
    ValidName name ∧ n :: tail = name.data ++ (attached value).data := by
  have hspec := cutEq_spec tail
  rcases hcut : cutEq tail with ⟨nm, _ | v⟩
  · rw [hcut] at hk hspec
    simp only [Token.flag.injEq] at hk
    obtain ⟨rfl, rfl⟩ := hk
    simp only [List.append_nil] at hspec
    refine ⟨⟨n, nm, rfl, hn1, hn2, hspec.1⟩, ?_⟩
    simp [attached, hspec.2]
  · rw [hcut] at hk hspec
    simp only [Token.flag.injEq] at hk
    obtain ⟨rfl, rfl⟩ := hk
    refine ⟨⟨n, nm, rfl, hn1, hn2, hspec.1⟩, ?_⟩
    have he : "=".data = ['='] := rfl
    simp [attached, hspec.2, String.data_append, he]

theorem ofString_flag_inv (s name : String) (value : Option String)
    (h : Token.ofString s = .flag name value) :
    ValidName name ∧ ∃ two, s = dashes two ++ name ++ attached value := by
  obtain ⟨l⟩ := s
  unfold Token.ofString at h
  simp only at h
  rcases l with _ | ⟨a, _ | ⟨c, cs⟩⟩
  · simp at h
  · simp at h
  · simp only at h
    by_cases ha : a = '-'
    swap
    · simp [ha] at h
    subst ha
    simp only [ne_eq, not_true_eq_false, if_false] at h
    by_cases hc : c = '-'
    · subst hc
      cases cs with
      | nil => simp at h
      | cons n tail =>
        simp only [true_and, if_true] at h
        by_cases hn1 : n = '-'
        · simp [hn1] at h
        by_cases hn2 : n = '='
        · simp [hn2] at h
        have hk : (match cutEq tail with
          | (nm, none) => Token.flag ⟨n :: nm⟩ none
          | (nm, some v) => Token.flag ⟨n :: nm⟩ (some ⟨v⟩)) = Token.flag name value := by
          simpa [hn1, hn2] using h
        obtain ⟨hv, hd⟩ := flag_of_cut name value n tail hn1 hn2 hk
        refine ⟨hv, true, String.ext ?_⟩
        simp [String.data_append, dashes_data, hd]
    · simp only [hc, false_and, if_false] at h
      by_cases hn2 : c = '='
      · simp [hn2] at h
      have hk : (match cutEq cs with
          | (nm, none) => Token.flag ⟨c :: nm⟩ none
          | (nm, some v) => Token.flag ⟨c :: nm⟩ (some ⟨v⟩)) = Token.flag name value := by
        simpa [hc, hn2] using h
      obtain ⟨hv, hd⟩ := flag_of_cut name value c cs hc hn2 hk
      refine ⟨hv, false, String.ext ?_⟩
      simp [String.data_append, dashes_data, hd]

theorem ofString_positional_iff (s : String) : Token.ofString s = .positional ↔ NotFlag s := by
  obtain ⟨l⟩ := s
  unfold Token.ofString NotFlag
  rcases l with _ | ⟨a, _ | ⟨c, cs⟩⟩
  · simp
  · simp [String.length]
  · simp only [String.length, List.length_cons, List.head?_cons]
    by_cases ha : a = '-'
    · subst ha
      have h2 : ¬ (cs.length + 1 + 1 < 2) := by omega
      simp only [ne_eq, not_true_eq_false, if_false, h2, false_or, iff_false]
      by_cases hc : c = '-' ∧ cs = []
      · simp [hc]
      · simp only [hc, if_false]
        split
        · simp
        · split
          · simp
          · split <;> simp
    · simp [ha]

theorem ofString_terminator_iff (s : String) : Token.ofString s = .terminator ↔ s = "--" := by
  obtain ⟨l⟩ := s
  have key : (String.mk l = "--") ↔ l = ['-', '-'] := by
    rw [String.ext_iff]
  rw [key]
  unfold Token.ofString
  rcases l with _ | ⟨a, _ | ⟨c, cs⟩⟩
  · simp
  · simp
  · simp only [List.cons.injEq]
    by_cases ha : a = '-'
    · subst ha
      simp only [ne_eq, not_true_eq_false, if_false, true_and]
      by_cases hc : c = '-' ∧ cs = []
      · simp [hc]
      · simp only [hc, if_false, iff_false]
        simp only [and_true] at hc
        split
        · simp
        · split
          · simp
          · split <;> simp
    · simp [ha]

theorem parse_tokens {σ : Type} (formal : String → Option (Flag σ))
    (w : Written) (hv : ValidName w.name) (rest : List String) (v v1 : σ)
    (h : w.apply formal v = some v1) :
    FlagSet.parse formal (w.tokens ++ rest) v = FlagSet.parse formal rest v1 := by
  cases w with
  | bare two name =>
    simp only [Written.apply] at h
    cases hf : formal name with
    | none => simp [hf] at h
    | some f =>
      simp only [hf] at h
      by_cases hb : f.isBool = true
      · simp only [hb, if_true] at h
        simp [Written.tokens, FlagSet.parse, ofString_bare two name hv, hf, hb, h]
      · simp [hb] at h
  | joined two name value =>
    simp only [Written.apply] at h
    cases hf : formal name with
    | none => simp [hf] at h
    | some f =>
      simp only [hf] at h
      by_cases hb : f.isBool = true
      · simp [Written.tokens, FlagSet.parse, ofString_joined two name value hv, hf, hb, h]
      · simp [Written.tokens, FlagSet.parse, ofString_joined two name value hv, hf, hb, h]
  | spaced two name value =>
    simp only [Written.apply] at h
    cases hf : formal name with
    | none => simp [hf] at h
    | some f =>
      simp only [hf] at h
      by_cases hb : f.isBool = true
      · simp [hb] at h
      · simp only [hb, Bool.false_eq_true, if_false] at h
        simp [Written.tokens, FlagSet.parse, ofString_bare two name hv, hf, hb, h]

theorem parse_flatMap {σ : Type} (formal : String → Option (Flag σ))
    (ws : List Written) (hv : ∀ w ∈ ws, ValidName w.name) (tail : List String) (v v1 : σ)
    (h : applyAll formal ws v = some v1) :
    FlagSet.parse formal (ws.flatMap Written.tokens ++ tail) v = FlagSet.parse formal tail v1 := by
  induction ws generalizing v with
  | nil =>
    simp only [applyAll, Option.some.injEq] at h
    simp [h]
  | cons w ws ih =>
    simp only [applyAll] at h
    cases hw : w.apply formal v with
    | none => simp [hw] at h
    | some v2 =>
      simp only [hw] at h
      rw [List.flatMap_cons, List.append_assoc,
        parse_tokens formal w (hv w (List.mem_cons_self _ _)) _ v v2 hw]
      exact ih (fun w1 hw1 => hv w1 (List.mem_cons_of_mem _ hw1)) v2 h

theorem parse_positionals {σ : Type} (formal : String → Option (Flag σ)) (tail rest : List String)
    (v : σ) (h : Positionals tail rest) : FlagSet.parse formal tail v = .ok v rest := by
  rcases h with ⟨rfl, rfl⟩ | ⟨s, t, rfl, hs, rfl⟩ | rfl
  · simp [FlagSet.parse]
  · simp [FlagSet.parse, (ofString_positional_iff s).2 hs]
  · simp [FlagSet.parse, (ofString_terminator_iff "--").2 rfl]

theorem parse_ok_inv {σ : Type} (formal : String → Option (Flag σ)) (args : List String) (v : σ) :
    ∀ v1 rest, FlagSet.parse formal args v = .ok v1 rest →
      ∃ ws tail, args = ws.flatMap Written.tokens ++ tail ∧ (∀ w ∈ ws, ValidName w.name) ∧
        applyAll formal ws v = some v1 ∧ Positionals tail rest := by
  induction args, v using FlagSet.parse.induct formal with
  | case1 v =>
    intro v1 rest h
    simp [FlagSet.parse] at h
    exact ⟨[], [], by simp, by simp, by simp [applyAll, h.1], Or.inl ⟨rfl, h.2⟩⟩
  | case2 s rest v ht =>
    intro v1 r h
    simp [FlagSet.parse, ht] at h
    exact ⟨[], s :: rest, by simp, by simp, by simp [applyAll, h.1],
      Or.inr (Or.inl ⟨s, rest, rfl, (ofString_positional_iff s).1 ht, h.2.symm⟩)⟩
  | case3 s rest v ht =>
    intro v1 r h
    simp [FlagSet.parse, ht] at h
    refine ⟨[], s :: rest, by simp, by simp, by simp [applyAll, h.1], Or.inr (Or.inr ?_)⟩
    rw [(ofString_terminator_iff s).1 ht, h.2]
  | case4 s rest v ht => intro v1 r h; simp [FlagSet.parse, ht] at h
  | case5 s rest v a b ht hf hn => intro v1 r h; simp [FlagSet.parse, ht, hf, hn] at h
  | case6 s rest v a b ht hf hn => intro v1 r h; simp [FlagSet.parse, ht, hf, hn] at h
  | case7 s rest v a b ht f hf hb hs => intro v1 r h; simp [FlagSet.parse, ht, hf, hb, hs] at h
  | case8 s rest v a b ht f hf hb w hs ih =>
    intro v1 r h
    simp [FlagSet.parse, ht, hf, hb, hs] at h
    obtain ⟨ws, tail, hargs, hval, happ, hpos⟩ := ih v1 r h
    obtain ⟨hname, two, hstr⟩ := ofString_flag_inv s a b ht
    cases b with
    | none =>
      refine ⟨Written.bare two a :: ws, tail, ?_, ?_, ?_, hpos⟩
      · simp [Written.tokens, hargs, hstr, attached]
      · intro w1 hw1
        rcases List.mem_cons.1 hw1 with rfl | hw1
        · exact hname
        · exact hval w1 hw1
      · simp only [Option.getD_none] at hs
        simp [applyAll, Written.apply, hf, hb, hs, happ]
    | some val =>
      refine ⟨Written.joined two a val :: ws, tail, ?_, ?_, ?_, hpos⟩
      · simp [Written.tokens, hargs, hstr, attached, String.append_assoc]
      · intro w1 hw1
        rcases List.mem_cons.1 hw1 with rfl | hw1
        · exact hname
        · exact hval w1 hw1
      · simp only [Option.getD_some] at hs
        simp [applyAll, Written.apply, hf, hs, happ]
  | case9 s rest v a f hf hb val hs ht => intro v1 r h; simp [FlagSet.parse, ht, hf, hb, hs] at h
  | case10 s rest v a f hf hb val w hs ht ih =>
    intro v1 r h
    simp [FlagSet.parse, ht, hf, hb, hs] at h
    obtain ⟨ws, tail, hargs, hval, happ, hpos⟩ := ih v1 r h
    obtain ⟨hname, two, hstr⟩ := ofString_flag_inv s a _ ht
    refine ⟨Written.joined two a val :: ws, tail, ?_, ?_, ?_, hpos⟩
    · simp [Written.tokens, hargs, hstr, attached, String.append_assoc]
    · intro w1 hw1
      rcases List.mem_cons.1 hw1 with rfl | hw1
      · exact hname
      · exact hval w1 hw1
    · simp [applyAll, Written.apply, hf, hs, happ]
  | case11 s v a f hf hb ht => intro v1 r h; simp [FlagSet.parse, ht, hf, hb] at h
  | case12 s v a f hf hb val rest1 hs ht => intro v1 r h; simp [FlagSet.parse, ht, hf, hb, hs] at h
  | case13 s v a f hf hb val rest1 w hs ht ih =>
    intro v1 r h
    simp [FlagSet.parse, ht, hf, hb, hs] at h
    obtain ⟨ws, tail, hargs, hval, happ, hpos⟩ := ih v1 r h
    obtain ⟨hname, two, hstr⟩ := ofString_flag_inv s a _ ht
    refine ⟨Written.spaced two a val :: ws, tail, ?_, ?_, ?_, hpos⟩
    · simp [Written.tokens, hargs, hstr, attached]
    · intro w1 hw1
      rcases List.mem_cons.1 hw1 with rfl | hw1
      · exact hname
      · exact hval w1 hw1
    · simp [applyAll, Written.apply, hf, hb, hs, happ]

theorem parse_ok_iff {σ : Type} (formal : String → Option (Flag σ))
    (args : List String) (v v1 : σ) (rest : List String) :
    FlagSet.parse formal args v = .ok v1 rest ↔
      ∃ ws tail, args = ws.flatMap Written.tokens ++ tail ∧ (∀ w ∈ ws, ValidName w.name) ∧
        applyAll formal ws v = some v1 ∧ Positionals tail rest := by
  constructor
  · exact parse_ok_inv formal args v v1 rest
  · rintro ⟨ws, tail, rfl, hval, happ, hpos⟩
    rw [parse_flatMap formal ws hval tail v v1 happ]
    exact parse_positionals formal tail rest v1 hpos

theorem parse_error_iff {σ : Type} (formal : String → Option (Flag σ))
    (args : List String) (v : σ) :
    (∃ e, FlagSet.parse formal args v = .error e) ↔ ¬ WellFormed formal v args := by
  constructor
  · rintro ⟨e, he⟩ ⟨ws, tail, rest, hargs, hval, happ, hpos⟩
    obtain ⟨v1, hv1⟩ := Option.isSome_iff_exists.1 happ
    have := (parse_ok_iff formal args v v1 rest).2 ⟨ws, tail, hargs, hval, hv1, hpos⟩
    rw [he] at this
    cases this
  · intro hnot
    cases hp : FlagSet.parse formal args v with
    | error e => exact ⟨e, rfl⟩
    | ok v1 rest =>
      obtain ⟨ws, tail, hargs, hval, happ, hpos⟩ := parse_ok_inv formal args v v1 rest hp
      exact absurd ⟨ws, tail, rest, hargs, hval, by simp [happ], hpos⟩ hnot

/-! ### The scanner and the exclusion file -/

theorem textLines_ne_nil (d : List Char) : textLines d ≠ [] := by
  cases d with
  | nil => simp [textLines]
  | cons c cs =>
    simp only [textLines]
    split
    · simp
    · split <;> simp

theorem textLines_append (cur d : List Char) (h : '\n' ∉ cur) :
    textLines (cur ++ d) = (cur ++ (textLines d).headD []) :: (textLines d).tail := by
  induction cur with
  | nil =>
    have := textLines_ne_nil d
    cases hd : textLines d with
    | nil => exact absurd hd this
    | cons l ls => simp [hd]
  | cons c cs ih =>
    simp only [List.mem_cons, not_or] at h
    have hc : c ≠ '\n' := fun e => h.1 e.symm
    have e : textLines (c :: (cs ++ d)) = (c :: (cs ++ (textLines d).headD [])) :: (textLines d).tail := by
      rw [textLines]
      simp only [hc, if_false, ih h.2]
    simpa using e

theorem textLines_of_not_mem (cur : List Char) (h : '\n' ∉ cur) : textLines cur = [cur] := by
  have := textLines_append cur [] h
  simpa [textLines] using this

theorem byteLen_append (a b : List Char) : byteLen (a ++ b) = byteLen a + byteLen b := by
  simp [byteLen]

theorem stripChars_eq_takeWhile (l : List Char) (h : '\n' ∉ l) :
    unixComments.stripChars l = l.takeWhile (fun c => c != '#') := by
  induction l with
  | nil => simp [unixComments.stripChars]
  | cons c cs ih =>
    simp only [List.mem_cons, not_or] at h
    by_cases hc : c = '#'
    · simp [unixComments.stripChars, hc, h.2]
    · simp [unixComments.stripChars, hc, ih h.2]

theorem takeWhile_snoc (q : Char → Bool) (m : List Char) (x : Char) (hx : q x = true) :
    (m ++ [x]).takeWhile q = m.takeWhile q ∨ (m ++ [x]).takeWhile q = m.takeWhile q ++ [x] := by
  induction m with
  | nil => right; simp [List.takeWhile, hx]
  | cons a m ih =>
    by_cases ha : q a = true
    · rcases ih with h | h
      · left; simp [List.takeWhile, ha, h]
      · right; simp [List.takeWhile, ha, h]
    · left; simp [List.takeWhile, ha]

theorem trim_snoc (p : Char → Bool) (m : List Char) (x : Char) (hx : p x = true) :
    dropTrailing p ((m ++ [x]).dropWhile p) = dropTrailing p (m.dropWhile p) := by
  induction m with
  | nil => simp [List.dropWhile, hx, dropTrailing]
  | cons a m ih =>
    by_cases ha : p a = true
    · simpa [List.dropWhile, ha] using ih
    · simp [List.dropWhile, ha, dropTrailing, hx]

theorem lineValue_dropCR (l : List Char) (h : '\n' ∉ l) :
    TrimSpace (unixComments.strip ⟨dropCR l⟩) = lineValue l := by
  unfold dropCR
  by_cases hl : l.getLast? = some '\r'
  · have hsplit : l = l.dropLast ++ ['\r'] := (List.dropLast_append_getLast? '\r' hl).symm
    have hm : '\n' ∉ l.dropLast := fun hmem => h (List.dropLast_subset l hmem)
    simp only [hl, if_true, unixComments.strip, lineValue, TrimSpace]
    rw [stripChars_eq_takeWhile _ hm]
    congr 1
    generalize l.dropLast = m at hsplit
    subst hsplit
    rcases takeWhile_snoc (fun c => c != '#') m '\r' (by decide) with e | e
    · rw [e]
    · rw [e, trim_snoc isSpace _ '\r' (by decide)]
  · simp only [hl, if_false, unixComments.strip, lineValue, TrimSpace]
    rw [stripChars_eq_takeWhile _ h]

theorem byteLen_head_le (cur d : List Char) (h : '\n' ∉ cur) :
    ∃ l ∈ textLines (cur ++ d), byteLen cur ≤ byteLen l := by
  refine ⟨cur ++ (textLines d).headD [], ?_, ?_⟩
  · rw [textLines_append cur d h]
    simp
  · rw [byteLen_append]
    omega

theorem scan_err_none_iff (e : Option String) (data cur : List Char) (hcur : '\n' ∉ cur)
    (hinv : byteLen cur < MaxScanTokenSize) :
    (Scanner.scan e data cur).err = none ↔
      e = none ∧ ∀ l ∈ textLines (cur ++ data), byteLen l < MaxScanTokenSize := by
  induction data generalizing cur with
  | nil =>
    simp [Scanner.scan, textLines_of_not_mem cur hcur, hinv]
  | cons c cs ih =>
    by_cases hc : c = '\n'
    · subst hc
      have h0 : byteLen [] < MaxScanTokenSize := by decide
      have := ih [] (by simp) h0
      simp only [List.nil_append] at this
      have hl : textLines (cur ++ '\n' :: cs) = cur :: textLines cs := by
        rw [textLines_append cur _ hcur]
        simp [textLines]
      simp [Scanner.scan, this, hl, hinv]
    · have hcur1 : '\n' ∉ cur ++ [c] := by
        simp only [List.mem_append, List.mem_singleton, not_or]
        exact ⟨hcur, fun e => hc e.symm⟩
      have happ : cur ++ c :: cs = (cur ++ [c]) ++ cs := by simp
      by_cases hlong : MaxScanTokenSize ≤ byteLen (cur ++ [c])
      · simp only [Scanner.scan, hc, if_false, hlong, if_true]
        constructor
        · intro h; cases h
        · rintro ⟨-, hall⟩
          obtain ⟨l, hl, hle⟩ := byteLen_head_le (cur ++ [c]) cs hcur1
          rw [← happ] at hl
          have := hall l hl
          omega
      · simp only [Scanner.scan, hc, if_false, hlong]
        rw [ih (cur ++ [c]) hcur1 (by omega), happ]

theorem lineValue_nil : lineValue [] = "" := by decide

theorem scan_entries (e : Option String) (data cur : List Char) (hcur : '\n' ∉ cur)
    (hshort : ∀ l ∈ textLines (cur ++ data), byteLen l < MaxScanTokenSize) :
    keptEntries (Scanner.scan e data cur).lines = fileEntries (cur ++ data) := by
  induction data generalizing cur with
  | nil =>
    simp only [Scanner.scan, List.append_nil, fileEntries, textLines_of_not_mem cur hcur]
    by_cases hnil : cur = []
    · subst hnil
      simp [keptEntries, lineValue_nil]
    · simp [hnil, keptEntries, lineValue_dropCR cur hcur]
  | cons c cs ih =>
    by_cases hc : c = '\n'
    · subst hc
      have hl : textLines (cur ++ '\n' :: cs) = cur :: textLines cs := by
        rw [textLines_append cur _ hcur]
        simp [textLines]
      rw [hl] at hshort
      have := ih [] (by simp) (by
        intro l hl1
        exact hshort l (List.mem_cons_of_mem _ (by simpa using hl1)))
      simp only [List.nil_append] at this
      simp only [Scanner.scan, if_true, fileEntries, hl]
      simp only [keptEntries, List.map_cons, lineValue_dropCR cur hcur] at this ⊢
      simp only [fileEntries] at this
      simp [List.filter_cons, this]
    · have hcur1 : '\n' ∉ cur ++ [c] := by
        simp only [List.mem_append, List.mem_singleton, not_or]
        exact ⟨hcur, fun e => hc e.symm⟩
      have happ : cur ++ c :: cs = (cur ++ [c]) ++ cs := by simp
      have hlong : ¬ MaxScanTokenSize ≤ byteLen (cur ++ [c]) := by
        obtain ⟨l, hl, hle⟩ := byteLen_head_le (cur ++ [c]) cs hcur1
        rw [← happ] at hl
        have := hshort l hl
        omega
      simp only [Scanner.scan, hc, if_false, hlong]
      rw [happ] at hshort ⊢
      exact ih (cur ++ [c]) hcur1 hshort

theorem foldl_addLine (lines : List String) (config : Configuration) :
    lines.foldl addLine config =
      { config with CveList := { Cves := config.CveList.Cves ++ keptEntries lines } } := by
  induction lines generalizing config with
  | nil => simp [keptEntries]
  | cons l ls ih =>
    rw [List.foldl_cons, ih]
    by_cases hl : TrimSpace (unixComments.strip l) = ""
    · simp [addLine, keptEntries, hl]
    · have hpos : (TrimSpace (unixComments.strip l)).length > 0 := by
        rcases hs : TrimSpace (unixComments.strip l) with ⟨d⟩
        cases d with
        | nil => exact absurd hs hl
        | cons a d => simp [String.length]
      simp [addLine, keptEntries, hl, hpos, List.filter_cons]

/-! ### The flag sets of `Parse` -/

theorem applyAll_preserves {σ α : Type} (formal : String → Option (Flag σ)) (proj : σ → α)
    (hset : ∀ name f s v v1, formal name = some f → f.set s v = some v1 → proj v1 = proj v)
    (ws : List Written) (v v1 : σ) (h : applyAll formal ws v = some v1) : proj v1 = proj v := by
  induction ws generalizing v with
  | nil =>
    simp only [applyAll, Option.some.injEq] at h
    rw [h]
  | cons w ws ih =>
    simp only [applyAll] at h
    cases hw : w.apply formal v with
    | none => simp [hw] at h
    | some v2 =>
      simp only [hw] at h
      rw [ih v2 h]
      cases w with
      | bare two name =>
        simp only [Written.apply] at hw
        cases hf : formal name with
        | none => simp [hf] at hw
        | some f =>
          simp only [hf] at hw
          by_cases hb : f.isBool = true
          · simp only [hb, if_true] at hw
            exact hset name f _ v v2 hf hw
          · simp [hb] at hw
      | joined two name value =>
        simp only [Written.apply] at hw
        cases hf : formal name with
        | none => simp [hf] at hw
        | some f =>
          simp only [hf] at hw
          exact hset name f _ v v2 hf hw
      | spaced two name value =>
        simp only [Written.apply] at hw
        cases hf : formal name with
        | none => simp [hf] at hw
        | some f =>
          simp only [hf] at hw
          by_cases hb : f.isBool = true
          · simp [hb] at hw
          · simp only [hb, Bool.false_eq_true, if_false] at hw
            exact hset name f _ v v2 hf hw

theorem parse_preserves {σ α : Type} (formal : String → Option (Flag σ)) (proj : σ → α)
    (hset : ∀ name f s v v1, formal name = some f → f.set s v = some v1 → proj v1 = proj v)
    (args : List String) (v v1 : σ) (rest : List String)
    (h : FlagSet.parse formal args v = .ok v1 rest) : proj v1 = proj v := by
  obtain ⟨ws, tail, -, -, happ, -⟩ := parse_ok_inv formal args v v1 rest h
  exact applyAll_preserves formal proj hset ws v v1 happ

theorem commandLineFlags_untouched (cveSet : CveSet) (name : String) (f : Flag PrimaryVars)
    (s : String) (v v1 : PrimaryVars) (hf : commandLineFlags cveSet name = some f)
    (hs : f.set s v = some v1) : untouchedByPrimary v1 = untouchedByPrimary v := by
  unfold commandLineFlags at hf
  split_ifs at hf <;> simp only [Option.some.injEq] at hf <;> subst hf <;>
    simp only [Option.map_eq_some', Option.some.injEq] at hs <;>
    (obtain ⟨b, -, rfl⟩ := hs; rfl)

theorem iqCommand_untouched (name : String) (f : Flag Configuration) (s : String)
    (c c1 : Configuration) (hf : iqCommand name = some f) (hs : f.set s c = some c1) :
    untouchedByIQ c1 = untouchedByIQ c := by
  unfold iqCommand at hf
  split_ifs at hf <;> simp only [Option.some.injEq] at hf <;> subst hf <;>
    simp only [Option.some.injEq] at hs <;> subst hs <;> rfl

theorem validNames_commandLineFlags (cveSet : CveSet) : ValidNames (commandLineFlags cveSet) := by
  intro name f hf
  unfold commandLineFlags at hf
  split_ifs at hf <;> subst_vars <;> exact ⟨_, _, rfl, by decide, by decide, by decide⟩

theorem validNames_iqCommand : ValidNames iqCommand := by
  intro name f hf
  unfold iqCommand at hf
  split_ifs at hf <;> subst_vars <;> exact ⟨_, _, rfl, by decide, by decide, by decide⟩

theorem apply_validName {σ : Type} (formal : String → Option (Flag σ)) (hv : ValidNames formal)
    (w : Written) (v v1 : σ) (h : w.apply formal v = some v1) : ValidName w.name := by
  cases w with
  | bare two name =>
    simp only [Written.apply] at h
    cases hf : formal name with
    | none => simp [hf] at h
    | some f => exact hv name f hf
  | joined two name value =>
    simp only [Written.apply] at h
    cases hf : formal name with
    | none => simp [hf] at h
    | some f => exact hv name f hf
  | spaced two name value =>
    simp only [Written.apply] at h
    cases hf : formal name with
    | none => simp [hf] at h
    | some f => exact hv name f hf

theorem formal_of_commandLineFlags {φ : Type} (cveSet : CveSet) (cl : CommandLine φ)
    (name : String) (f : Flag PrimaryVars) (hf : commandLineFlags cveSet name = some f) :
    cl.formal cveSet name =
      some ⟨f.isBool, fun s v => (f.set s v.1).map fun p => (p, v.2)⟩ := by
  simp [CommandLine.formal, hf]

theorem apply_lift {φ : Type} (cveSet : CveSet) (cl : CommandLine φ) (w : Written)
    (v v1 : PrimaryVars) (q : φ) (h : w.apply (commandLineFlags cveSet) v = some v1) :
    w.apply (cl.formal cveSet) (v, q) = some (v1, q) := by
  cases w with
  | bare two name =>
    simp only [Written.apply] at h ⊢
    cases hf : commandLineFlags cveSet name with
    | none => simp [hf] at h
    | some f =>
      simp only [hf] at h
      rw [formal_of_commandLineFlags cveSet cl name f hf]
      by_cases hb : f.isBool = true
      · simp only [hb, if_true] at h
        simp [hb, h]
      · simp [hb] at h
  | joined two name value =>
    simp only [Written.apply] at h ⊢
    cases hf : commandLineFlags cveSet name with
    | none => simp [hf] at h
    | some f =>
      simp only [hf] at h
      rw [formal_of_commandLineFlags cveSet cl name f hf]
      simp [h]
  | spaced two name value =>
    simp only [Written.apply] at h ⊢
    cases hf : commandLineFlags cveSet name with
    | none => simp [hf] at h
    | some f =>
      simp only [hf] at h
      rw [formal_of_commandLineFlags cveSet cl name f hf]
      by_cases hb : f.isBool = true
      · simp [hb] at h
      · simp only [hb, Bool.false_eq_true, if_false] at h
        simp [hb, h]

theorem applyAll_lift {φ : Type} (cveSet : CveSet) (cl : CommandLine φ) (ws : List Written)
    (v v1 : PrimaryVars) (q : φ) (h : applyAll (commandLineFlags cveSet) ws v = some v1) :
    applyAll (cl.formal cveSet) ws (v, q) = some (v1, q) ∧ ∀ w ∈ ws, ValidName w.name := by
  induction ws generalizing v with
  | nil =>
    simp only [applyAll, Option.some.injEq] at h
    simp [applyAll, h]
  | cons w ws ih =>
    simp only [applyAll] at h
    cases hw : w.apply (commandLineFlags cveSet) v with
    | none => simp [hw] at h
    | some v2 =>
      simp only [hw] at h
      obtain ⟨h1, h2⟩ := ih v2 h
      refine ⟨?_, ?_⟩
      · simp only [applyAll, apply_lift cveSet cl w v v2 q hw, h1]
      · intro w1 hw1
        rcases List.mem_cons.1 hw1 with rfl | hw1
        · exact apply_validName _ (validNames_commandLineFlags cveSet) _ v v2 hw
        · exact h2 w1 hw1

theorem parse_lift {φ : Type} (cveSet : CveSet) (cl : CommandLine φ) (args : List String)
    (v vars : PrimaryVars) (rest : List String) (q : φ)
    (h : FlagSet.parse (commandLineFlags cveSet) args v = .ok vars rest) :
    FlagSet.parse (cl.formal cveSet) args (v, q) = .ok (vars, q) rest := by
  obtain ⟨ws, tail, hargs, -, happ, hpos⟩ := parse_ok_inv _ args v vars rest h
  obtain ⟨h1, h2⟩ := applyAll_lift cveSet cl ws v vars q happ
  exact (parse_ok_iff _ args (v, q) (vars, q) rest).2 ⟨ws, tail, hargs, h2, h1, hpos⟩

theorem getCVEExcludesFromFile_fields (fs : FileSystem) (config : Configuration) (path : String) :
    ∃ entries, (getCVEExcludesFromFile fs config path).1 =
      { config with CveList := { Cves := config.CveList.Cves ++ entries } } := by
  unfold getCVEExcludesFromFile
  split
  · exact ⟨[], by simp⟩
  · exact ⟨[], by simp⟩
  · split
    · exact ⟨[], by simp⟩
    · exact ⟨_, foldl_addLine _ _⟩

theorem getCVEExcludesFromFile_read (fs : FileSystem) (config : Configuration) (path : String)
    (file : File) (hstat : fs.stat path = .info false) (hopen : fs.openFile path = .ok file)
    (hread : file.readErr = none)
    (hshort : ∀ l ∈ textLines file.data, byteLen l < MaxScanTokenSize) :
    getCVEExcludesFromFile fs config path =
      ({ config with CveList := { Cves := config.CveList.Cves ++ fileEntries file.data } },
        none) := by
  have herr := (scan_err_none_iff file.readErr file.data [] (by simp) (by decide)).2
    ⟨hread, by simpa using hshort⟩
  have hent := scan_entries file.readErr file.data [] (by simp) (by simpa using hshort)
  simp only [List.nil_append] at hent
  simp only [getCVEExcludesFromFile, hstat, hopen, foldl_addLine, Scanner.run]
  rw [herr, hent]

theorem scan_replicate (e : Option String) (n : Nat) (rest cur : List Char)
    (hinv : byteLen cur < MaxScanTokenSize) (hlong : MaxScanTokenSize ≤ byteLen cur + n) :
    Scanner.scan e (List.replicate n 'a' ++ rest) cur = ⟨[], some ErrTooLong⟩ := by
  induction n generalizing cur with
  | zero => omega
  | succ n ih =>
    have ha : ('a' : Char) ≠ '\n' := by decide
    have hlen : byteLen (cur ++ ['a']) = byteLen cur + 1 := by
      rw [byteLen_append]
      rfl
    rw [List.replicate_succ, List.cons_append, Scanner.scan]
    simp only [ha, if_false, hlen]
    by_cases h : MaxScanTokenSize ≤ byteLen cur + 1
    · simp [h]
    · simp only [h, if_false]
      exact ih (cur ++ ['a']) (by omega) (by omega)

theorem fileEntries_longFile (n : Nat) : "D" ∈ fileEntries (longFile n).data := by
  have hmem : '\n' ∉ List.replicate n 'a' := by
    intro h
    have := List.eq_of_mem_replicate h
    exact absurd this (by decide)
  have hl : textLines (List.replicate n 'a' ++ ['\n', 'D', '\n']) =
      List.replicate n 'a' :: [['D'], []] := by
    rw [textLines_append _ _ hmem]
    simp [textLines]
  have hD : lineValue ['D'] = "D" := by decide
  have hD2 : ("D" != "") = true := by decide
  simp only [longFile, fileEntries, hl, List.map_cons, List.mem_filter, List.mem_cons]
  exact ⟨Or.inr (Or.inl hD.symm), hD2⟩

theorem getCVEExcludesFromFile_scan (fs : FileSystem) (config : Configuration) (path : String)
    (file : File) (hstat : fs.stat path = .info false) (hopen : fs.openFile path = .ok file) :
    getCVEExcludesFromFile fs config path =
      ((Scanner.run file).lines.foldl addLine config, (Scanner.run file).err) := by
  simp only [getCVEExcludesFromFile, hstat, hopen]

theorem getCVEExcludesFromFile_congr (fs fs2 : FileSystem) (config : Configuration)
    (path : String) (hstat : fs2.stat path = fs.stat path)
    (hopen : fs2.openFile path = fs.openFile path) :
    getCVEExcludesFromFile fs2 config path = getCVEExcludesFromFile fs config path := by
  simp only [getCVEExcludesFromFile, hstat, hopen]

/-! ### `Parse`, by mode -/

theorem defineFlags_of_fresh {φ : Type} (cl : CommandLine φ) (h : cl.Fresh) :
    defineFlags cl = some { cl with defined := true } := by
  obtain ⟨hd, hn⟩ := h
  have h1 := hn "help" (by decide)
  have h2 := hn "no-color" (by decide)
  have h3 := hn "noColor" (by decide)
  have h4 := hn "quiet" (by decide)
  have h5 := hn "version" (by decide)
  have h6 := hn "exclude-vulnerability" (by decide)
  have h7 := hn "exclude-vulnerability-file" (by decide)
  simp only [Option.isNone_iff_eq_none] at h1 h2 h3 h4 h5 h6 h7
  simp [defineFlags, CommandLine.Var, hd, h1, h2, h3, h4, h5, h6, h7]

theorem defineFlags_of_defined {φ : Type} (cl : CommandLine φ) (h : cl.defined = true) :
    defineFlags cl = none := by
  simp [defineFlags, CommandLine.Var, h]

theorem Var_eq_some {φ : Type} (cl cl0 : CommandLine φ) (n : String) (h : cl.Var n = some cl0) :
    cl0 = cl := by
  unfold CommandLine.Var at h
  split_ifs at h
  simp only [Option.some.injEq] at h
  exact h.symm

theorem defineFlags_eq_some {φ : Type} (cl cl0 : CommandLine φ) (h : defineFlags cl = some cl0) :
    cl0 = { cl with defined := true } := by
  simp only [defineFlags, Option.bind_eq_bind, Option.bind_eq_some] at h
  obtain ⟨c1, h1, c2, h2, c3, h3, c4, h4, c5, h5, c6, h6, c7, h7, h8⟩ := h
  simp only [Option.some.injEq] at h8
  rw [← h8, Var_eq_some _ _ _ h7, Var_eq_some _ _ _ h6, Var_eq_some _ _ _ h5,
    Var_eq_some _ _ _ h4, Var_eq_some _ _ _ h3, Var_eq_some _ _ _ h2, Var_eq_some _ _ _ h1]

theorem Parse_iq_eq {φ : Type} (cveSet : CveSet) (prog : String) (rest : List String)
    (cl : CommandLine φ) (fs : FileSystem) (args : List String) (hfresh : cl.Fresh) :
    Parse cveSet (prog :: "iq" :: rest) cl fs args =
      match FlagSet.parse iqCommand rest definedConfig with
      | .error e => .exit (if e = .help then 0 else 2)
      | .ok config _ =>
        .returned { config with IQ := true, UseStdIn := true } none
          { cl with defined := true } := by
  simp [Parse, defineFlags_of_fresh cl hfresh]

theorem Parse_primary_eq {φ : Type} (cveSet : CveSet) (osArgs : List String)
    (cl : CommandLine φ) (fs : FileSystem) (args : List String) (hmode : ¬ IQMode osArgs)
    (hfresh : cl.Fresh) (hargs : cl.args = []) :
    Parse cveSet osArgs cl fs args =
      match FlagSet.parse (cl.formal cveSet) args (startVars, cl.vars) with
      | .error _ => .exit 2
      | .ok vars rest =>
        .returned
          (getCVEExcludesFromFile fs (afterDeprecation vars.1)
            vars.1.excludeVulnerabilityFilePath).1
          (getCVEExcludesFromFile fs (afterDeprecation vars.1)
            vars.1.excludeVulnerabilityFilePath).2
          { cl with defined := true, vars := vars.2, args := rest } := by
  unfold IQMode at hmode
  have hformal : CommandLine.formal cveSet
      { flags := cl.flags, vars := cl.vars, defined := true, args := [] } = cl.formal cveSet :=
    rfl
  simp only [Parse, defineFlags_of_fresh cl hfresh, hmode, if_false, hargs, List.length_nil,
    if_true, startVars, hformal]
  cases FlagSet.parse (cl.formal cveSet) args
      (⟨{ definedConfig with UseStdIn := true }, "./.nancy-ignore", false⟩, cl.vars) with
  | error e => rfl
  | ok vars rest =>
    simp only [afterDeprecation]
    by_cases hd : vars.1.noColorDeprecated = true
    · simp [hd]
    · simp [hd]

theorem Parse_primary_of_parse {φ : Type} (cveSet : CveSet) (osArgs : List String)
    (cl : CommandLine φ) (fs : FileSystem) (args : List String) (vars : PrimaryVars)
    (rest : List String) (hmode : ¬ IQMode osArgs) (hfresh : cl.Fresh) (hargs : cl.args = [])
    (hparse : FlagSet.parse (commandLineFlags cveSet) args startVars = .ok vars rest) :
    Parse cveSet osArgs cl fs args =
      .returned
        (getCVEExcludesFromFile fs (afterDeprecation vars) vars.excludeVulnerabilityFilePath).1
        (getCVEExcludesFromFile fs (afterDeprecation vars) vars.excludeVulnerabilityFilePath).2
        { cl with defined := true, args := rest } := by
  rw [Parse_primary_eq cveSet osArgs cl fs args hmode hfresh hargs,
    parse_lift cveSet cl args startVars vars rest cl.vars hparse]

theorem Parse_returned_defined {φ : Type} (cveSet : CveSet) (osArgs : List String)
    (cl : CommandLine φ) (fs : FileSystem) (args : List String) (config : Configuration)
    (err : Option String) (cl1 : CommandLine φ)
    (h : Parse cveSet osArgs cl fs args = .returned config err cl1) : cl1.defined = true := by
  unfold Parse at h
  cases hd : defineFlags cl with
  | none => simp [hd] at h
  | some cl0 =>
    have hcl0 := defineFlags_eq_some cl cl0 hd
    simp only [hd] at h
    have hdef : cl0.defined = true := by rw [hcl0]
    split_ifs at h
    · split at h
      · cases h
      · simp only [Outcome.returned.injEq] at h
        rw [← h.2.2]
        exact hdef
    · split at h
      · cases h
      · split at h
        · cases h
        · simp only [Outcome.returned.injEq] at h
          rw [← h.2.2]
          exact hdef
    · split at h
      · cases h
      · split at h
        · cases h
        · simp only [Outcome.returned.injEq] at h
          rw [← h.2.2]
          exact hdef

theorem Parse_longFile (n : Nat) (h : MaxScanTokenSize ≤ n) :
    Parse CveListFlag.Set ["nancy"] CommandLine.initial
        (FileSystem.single "./.nancy-ignore" (longFile n)) [] =
      .returned { definedConfig with UseStdIn := true } (some ErrTooLong)
        { CommandLine.initial with defined := true } := by
  have hscan : Scanner.run (longFile n) = ⟨[], some ErrTooLong⟩ :=
    scan_replicate none n ['\n', 'D', '\n'] [] (by decide) (by simpa [byteLen] using h)
  have hparse : FlagSet.parse (commandLineFlags CveListFlag.Set) [] startVars
      = .ok startVars [] := rfl
  have hstat : (FileSystem.single "./.nancy-ignore" (longFile n)).stat
      startVars.excludeVulnerabilityFilePath = .info false := by
    simp [FileSystem.single, startVars]
  have hopen : (FileSystem.single "./.nancy-ignore" (longFile n)).openFile
      startVars.excludeVulnerabilityFilePath = .ok (longFile n) := by
    simp [FileSystem.single, startVars]
  rw [Parse_primary_of_parse CveListFlag.Set ["nancy"] CommandLine.initial _ [] startVars []
    (by decide) (by decide) rfl hparse]
  simp only [getCVEExcludesFromFile_scan _ _ _ _ hstat hopen, hscan]
  rfl

/-! ### Options of the two flag sets -/

theorem iqOption_apply (o : IQOption) (c : Configuration) :
    o.written.apply iqCommand c = some (o.flag.store o.value c) := by
  obtain ⟨f, value, two, joined⟩ := o
  cases f <;> cases joined <;> rfl

theorem applyAll_iqOptions (os : List IQOption) (c : Configuration) :
    applyAll iqCommand (os.map IQOption.written) c = some (storeAll os c) := by
  induction os generalizing c with
  | nil => rfl
  | cons o os ih =>
    simp only [List.map_cons, applyAll, iqOption_apply, storeAll, List.foldl_cons]
    exact ih _

theorem supplied_cons (f : IQFlag) (dflt : String) (o : IQOption) (os : List IQOption) :
    supplied f dflt (o :: os) = supplied f (if o.flag = f then o.value else dflt) os := by
  unfold supplied
  by_cases h : o.flag = f
  · simp only [List.filter_cons, h, decide_True, if_true]
    cases hfil : os.filter (fun o => o.flag = f) with
    | nil => simp
    | cons a l =>
      rw [List.getLast?_cons_cons]
      cases hlast : (a :: l).getLast? with
      | none => simp at hlast
      | some b => rfl
  · simp [List.filter_cons, h]

theorem storeAll_field (f : IQFlag) (os : List IQOption) (c : Configuration) :
    f.field (storeAll os c) = supplied f (f.field c) os := by
  induction os generalizing c with
  | nil => simp [storeAll, supplied]
  | cons o os ih =>
    rw [supplied_cons]
    have hstep : storeAll (o :: os) c = storeAll os (o.flag.store o.value c) := rfl
    rw [hstep, ih]
    congr 1
    obtain ⟨g, value, two, joined⟩ := o
    cases f <;> cases g <;> simp [IQFlag.field, IQFlag.store]

theorem iqOption_validName (o : IQOption) : ValidName o.written.name := by
  obtain ⟨f, value, two, joined⟩ := o
  cases f <;> cases joined <;> exact ⟨_, _, rfl, by decide, by decide, by decide⟩

theorem primaryOption_validName (o : PrimaryOption) : ValidName o.written.name := by
  cases o with
  | switch two flag => cases flag <;> exact ⟨_, _, rfl, by decide, by decide, by decide⟩
  | assign two flag value spelling =>
    cases flag <;> exact ⟨_, _, rfl, by decide, by decide, by decide⟩
  | exclude two joined value =>
    cases joined <;> exact ⟨_, _, rfl, by decide, by decide, by decide⟩
  | excludeFile two joined path =>
    cases joined <;> exact ⟨_, _, rfl, by decide, by decide, by decide⟩

theorem primaryOption_apply {φ : Type} (cveSet : CveSet) (cl : CommandLine φ)
    (o : PrimaryOption) (v : PrimaryVars) (q : φ) :
    o.written.apply (cl.formal cveSet) (v, q) = (o.store cveSet v).map fun p => (p, q) := by
  cases o with
  | switch two flag => cases flag <;> rfl
  | assign two flag value spelling => cases flag <;> cases value <;> cases spelling <;> rfl
  | exclude two joined value =>
    cases joined
    · simp only [PrimaryOption.written, Written.apply, CommandLine.formal, commandLineFlags,
        PrimaryOption.store]
      simp [Option.map_map, Function.comp_def]
    · simp only [PrimaryOption.written, Written.apply, CommandLine.formal, commandLineFlags,
        PrimaryOption.store]
      simp [Option.map_map, Function.comp_def]
  | excludeFile two joined path => cases joined <;> rfl

theorem store_field (cveSet : CveSet) (o : PrimaryOption) (v v1 : PrimaryVars) (f : BoolFlag)
    (h : o.store cveSet v = some v1) : f.field v1 = (o.sets f).getD (f.field v) := by
  cases o with
  | switch two g =>
    simp only [PrimaryOption.store, Option.some.injEq] at h
    subst h
    cases f <;> cases g <;> simp [PrimaryOption.sets, BoolFlag.field, BoolFlag.store]
  | assign two g value spelling =>
    simp only [PrimaryOption.store, Option.some.injEq] at h
    subst h
    cases f <;> cases g <;> simp [PrimaryOption.sets, BoolFlag.field, BoolFlag.store]
  | exclude two joined value =>
    simp only [PrimaryOption.store, Option.map_eq_some'] at h
    obtain ⟨l, -, rfl⟩ := h
    cases f <;> rfl
  | excludeFile two joined path =>
    simp only [PrimaryOption.store, Option.some.injEq] at h
    subst h
    cases f <;> rfl

theorem store_of_exclusions (cveSet : CveSet) (o : PrimaryOption) (os : List PrimaryOption)
    (v : PrimaryVars) (l : CveListFlag)
    (h : exclusions cveSet (o :: os) v.config.CveList = some l) :
    ∃ v1, o.store cveSet v = some v1 ∧ exclusions cveSet os v1.config.CveList = some l := by
  cases o with
  | switch two g => exact ⟨_, rfl, by cases g <;> simpa [exclusions, BoolFlag.store] using h⟩
  | assign two g value spelling =>
    exact ⟨_, rfl, by cases g <;> simpa [exclusions, BoolFlag.store] using h⟩
  | exclude two joined value =>
    simp only [exclusions] at h
    cases hc : cveSet value v.config.CveList with
    | none => simp [hc] at h
    | some l1 =>
      simp only [hc] at h
      exact ⟨{ v with config := { v.config with CveList := l1 } },
        by simp [PrimaryOption.store, hc], h⟩
  | excludeFile two joined path => exact ⟨_, rfl, by simpa [exclusions] using h⟩

theorem lastSetting_cons (f : BoolFlag) (o : PrimaryOption) (os : List PrimaryOption)
    (dflt : Bool) :
    (((o :: os).filterMap (PrimaryOption.sets f)).getLast?).getD dflt =
      ((os.filterMap (PrimaryOption.sets f)).getLast?).getD ((o.sets f).getD dflt) := by
  cases ho : o.sets f with
  | none => simp [List.filterMap_cons, ho]
  | some b => simp [List.filterMap_cons, ho, List.getLast?_cons]

theorem applyAll_primaryOptions {φ : Type} (cveSet : CveSet) (cl : CommandLine φ)
    (os : List PrimaryOption) (v : PrimaryVars) (q : φ) (l : CveListFlag)
    (h : exclusions cveSet os v.config.CveList = some l) :
    ∃ v1, applyAll (cl.formal cveSet) (os.map PrimaryOption.written) (v, q) = some (v1, q) ∧
      ∀ f : BoolFlag, f.field v1 =
        ((os.filterMap (PrimaryOption.sets f)).getLast?).getD (f.field v) := by
  induction os generalizing v with
  | nil => exact ⟨v, rfl, fun f => rfl⟩
  | cons o os ih =>
    obtain ⟨v2, hstore, hex⟩ := store_of_exclusions cveSet o os v l h
    obtain ⟨v1, happ, hfield⟩ := ih v2 hex
    refine ⟨v1, ?_, ?_⟩
    · simp only [List.map_cons, applyAll, primaryOption_apply, hstore, Option.map_some', happ]
    · intro f
      rw [hfield f, lastSetting_cons, store_field cveSet o v v2 f hstore]

/-! ## The claims -/

/-- C1 (the code at the failing input).  In a process started as `nancy -quiet mylockfile.lock`,
with no exclusion file, `Parse` consults `flag.Args()` before `flag.CommandLine` has parsed
anything, finds it empty, and returns `UseStdIn = true` and `Path = ""`, although the parse
then leaves the positional argument `mylockfile.lock`. -/
theorem Parse_quiet_lockfile :
    Parse CveListFlag.Set ["nancy", "-quiet", "mylockfile.lock"] CommandLine.initial
        FileSystem.empty ["-quiet", "mylockfile.lock"] =
      .returned { definedConfig with Quiet := true, UseStdIn := true, Path := "" } none
        { CommandLine.initial with defined := true, args := ["mylockfile.lock"] } :=
  rfl

/-- C2.  In primary mode, in a process in which `Parse` has not run and `flag.Args()` is still
empty, every argument sequence that parses successfully and leaves no positional argument makes
`Parse` return a configuration with `UseStdIn = true` and `Path = ""`. -/
theorem Parse_zero_positionals {φ : Type} (cveSet : CveSet) (osArgs : List String)
    (cl : CommandLine φ)
    (fs : FileSystem) (args : List String) (vars : PrimaryVars)
    (hmode : ¬ IQMode osArgs) (hfresh : cl.Fresh) (hargs : cl.args = [])
    (hparse : FlagSet.parse (commandLineFlags cveSet) args startVars = .ok vars []) :
    ∃ config err cl1, Parse cveSet osArgs cl fs args = .returned config err cl1 ∧
      config.UseStdIn = true ∧ config.Path = "" := by
  rw [Parse_primary_of_parse cveSet osArgs cl fs args vars [] hmode hfresh hargs hparse]
  have hu := parse_preserves (commandLineFlags cveSet) untouchedByPrimary
    (commandLineFlags_untouched cveSet) args startVars vars [] hparse
  simp only [untouchedByPrimary, Prod.mk.injEq] at hu
  obtain ⟨entries, he⟩ := getCVEExcludesFromFile_fields fs (afterDeprecation vars)
    vars.excludeVulnerabilityFilePath
  refine ⟨_, _, _, rfl, ?_, ?_⟩
  · rw [he]
    unfold afterDeprecation
    split <;> simp [hu.1, startVars]
  · rw [he]
    unfold afterDeprecation
    split <;> simp [hu.2.2.1, startVars, definedConfig]

/-- C2, at the arguments `-quiet` with no exclusion file. -/
theorem Parse_zero_positionals_witness :
    ∃ config err cl1, Parse CveListFlag.Set ["nancy", "-quiet"] CommandLine.initial
        FileSystem.empty ["-quiet"] = .returned config err cl1 ∧
      config.UseStdIn = true ∧ config.Path = "" :=
  Parse_zero_positionals CveListFlag.Set ["nancy", "-quiet"] CommandLine.initial
    FileSystem.empty ["-quiet"]
    ⟨{ definedConfig with UseStdIn := true, Quiet := true }, "./.nancy-ignore", false⟩
    (by decide) (by decide) rfl rfl

/-- C3.  When `os.Args[1]` is `iq` and the remaining process arguments are accepted by the flag
set `iqCommand`, `Parse` returns, with no error, the configuration that parse produced with
`IQ = true` and `UseStdIn = true`, whatever the argument `args`, the file system and the `Set`
method of the exclusion flag are.  The remaining tokens only ever meet `iqCommand`: no field a
primary flag is bound to leaves its zero value, and no name of a primary flag is a flag of
`iqCommand`. -/
theorem Parse_iq_mode {φ : Type} (cveSet : CveSet) (prog : String) (rest : List String)
    (cl : CommandLine φ)
    (fs : FileSystem) (args : List String) (config : Configuration) (leftover : List String)
    (hfresh : cl.Fresh)
    (hparse : FlagSet.parse iqCommand rest definedConfig = .ok config leftover) :
    Parse cveSet (prog :: "iq" :: rest) cl fs args =
        .returned { config with IQ := true, UseStdIn := true } none
          { cl with defined := true } ∧
      (config.Help = false ∧ config.NoColor = false ∧ config.Quiet = false ∧
        config.Version = false ∧ config.CveList.Cves = [] ∧ config.Path = "") ∧
      ∀ n ∈ flagNames, (iqCommand n).isNone = true := by
  refine ⟨?_, ?_, by decide⟩
  · rw [Parse_iq_eq cveSet prog rest cl fs args hfresh, hparse]
  · have hu := parse_preserves iqCommand untouchedByIQ iqCommand_untouched rest definedConfig config
      leftover hparse
    simp only [untouchedByIQ, Prod.mk.injEq] at hu
    obtain ⟨-, h1, h2, h3, h4, h5, -, h7⟩ := hu
    rw [h1, h2, h3, h4, h5, h7]
    decide

/-- C3, at the process arguments `iq -application foo -stage release`, with primary-looking
arguments passed to `Parse`. -/
theorem Parse_iq_mode_witness :
    Parse CveListFlag.Set ["nancy", "iq", "-application", "foo", "-stage", "release"]
        CommandLine.initial FileSystem.empty ["-quiet", "mylockfile.lock"] =
      .returned { definedConfig with Application := "foo", Stage := "release", IQ := true,
                                     UseStdIn := true } none
        { CommandLine.initial with defined := true } :=
  (Parse_iq_mode CveListFlag.Set "nancy" ["-application", "foo", "-stage", "release"]
    CommandLine.initial FileSystem.empty ["-quiet", "mylockfile.lock"]
    { definedConfig with Application := "foo", Stage := "release" } [] (by decide) rfl).1

/-- C4 (counterexample).  The exclusion file is a readable regular file whose first line is
65536 letters `a` and whose second line is `D`; no exclusion is given on the command line.  The
scanner stops at the first line with `ErrTooLong`: `Parse` returns that error and an empty
exclusion list, whereas the entries of the file, which the claim puts in the list, include
`D`. -/
theorem Parse_stops_at_long_line :
    Parse CveListFlag.Set ["nancy"] CommandLine.initial
        (FileSystem.single "./.nancy-ignore" (longFile 65536)) [] =
      .returned { definedConfig with UseStdIn := true, CveList := { Cves := [] } }
        (some ErrTooLong) { CommandLine.initial with defined := true } ∧
      ([] : List String) ≠ [] ++ fileEntries (longFile 65536).data := by
  refine ⟨Parse_longFile 65536 (by decide), ?_⟩
  intro h
  have := fileEntries_longFile 65536
  rw [List.nil_append] at h
  rw [← h] at this
  cases this

/-- C4 (amended).  In primary mode, when the exclusion file is a regular file that opens, whose
reads do not fail and whose lines are all shorter than `MaxScanTokenSize` bytes, `Parse` returns
no error and an exclusion list made of the command-line exclusions followed by the entries of
the file: in file order and without de-duplication, the value of every line once everything from
its first `#` onward is removed and the white space around it trimmed, the empty values left
out. -/
theorem Parse_merges_exclusion_file {φ : Type} (cveSet : CveSet) (osArgs : List String)
    (cl : CommandLine φ)
    (fs : FileSystem) (args : List String) (vars : PrimaryVars) (rest : List String)
    (file : File)
    (hmode : ¬ IQMode osArgs) (hfresh : cl.Fresh) (hargs : cl.args = [])
    (hparse : FlagSet.parse (commandLineFlags cveSet) args startVars = .ok vars rest)
    (hstat : fs.stat vars.excludeVulnerabilityFilePath = .info false)
    (hopen : fs.openFile vars.excludeVulnerabilityFilePath = .ok file)
    (hread : file.readErr = none)
    (hshort : ∀ l ∈ textLines file.data, byteLen l < MaxScanTokenSize) :
    ∃ config cl1, Parse cveSet osArgs cl fs args = .returned config none cl1 ∧
      config.CveList.Cves = vars.config.CveList.Cves ++ fileEntries file.data := by
  rw [Parse_primary_of_parse cveSet osArgs cl fs args vars rest hmode hfresh hargs hparse]
  simp only [getCVEExcludesFromFile_read fs _ _ file hstat hopen hread hshort]
  refine ⟨_, _, rfl, ?_⟩
  unfold afterDeprecation
  split <;> rfl

/-- C4 (amended), at the command-line exclusions `A,B` and the file `"C\n# note\nD  \n\n"`: the
returned list is `A, B, C, D`. -/
theorem Parse_merges_exclusion_file_witness :
    (∃ config cl1, Parse CveListFlag.Set ["nancy", "-exclude-vulnerability=A,B"]
        CommandLine.initial
        (FileSystem.single "./.nancy-ignore" { data := "C\n# note\nD  \n\n".data })
        ["-exclude-vulnerability=A,B"] = .returned config none cl1 ∧
      config.CveList.Cves = ["A", "B"] ++ fileEntries "C\n# note\nD  \n\n".data) ∧
      ["A", "B"] ++ fileEntries "C\n# note\nD  \n\n".data = ["A", "B", "C", "D"] :=
  ⟨Parse_merges_exclusion_file CveListFlag.Set ["nancy", "-exclude-vulnerability=A,B"]
    CommandLine.initial
    (FileSystem.single "./.nancy-ignore" { data := "C\n# note\nD  \n\n".data })
    ["-exclude-vulnerability=A,B"]
    ⟨{ definedConfig with UseStdIn := true, CveList := { Cves := ["A", "B"] } },
      "./.nancy-ignore", false⟩ [] { data := "C\n# note\nD  \n\n".data }
    (by decide) (by decide) rfl rfl rfl rfl rfl (by decide), by decide⟩

/-- C5.  In primary mode, when `os.Stat` reports the exclusion-file path missing, or reports a
directory there, `getCVEExcludesFromFile` returns no error and the configuration it was given,
and `Parse` returns, with no error, a configuration whose exclusion list is exactly the one the
command line supplied; the outcome is the same in the two cases. -/
theorem Parse_no_exclusion_file {φ : Type} (cveSet : CveSet) (osArgs : List String)
    (cl : CommandLine φ)
    (fs : FileSystem) (args : List String) (vars : PrimaryVars) (rest : List String)
    (hmode : ¬ IQMode osArgs) (hfresh : cl.Fresh) (hargs : cl.args = [])
    (hparse : FlagSet.parse (commandLineFlags cveSet) args startVars = .ok vars rest)
    (hstat : fs.stat vars.excludeVulnerabilityFilePath = .error true ∨
      fs.stat vars.excludeVulnerabilityFilePath = .info true) :
    (∀ config, getCVEExcludesFromFile fs config vars.excludeVulnerabilityFilePath
        = (config, none)) ∧
      Parse cveSet osArgs cl fs args =
        .returned (afterDeprecation vars) none { cl with defined := true, args := rest } ∧
      (afterDeprecation vars).CveList.Cves = vars.config.CveList.Cves := by
  have hget : ∀ config, getCVEExcludesFromFile fs config vars.excludeVulnerabilityFilePath
      = (config, none) := by
    intro config
    rcases hstat with h | h <;> simp [getCVEExcludesFromFile, h]
  refine ⟨hget, ?_, ?_⟩
  · rw [Parse_primary_of_parse cveSet osArgs cl fs args vars rest hmode hfresh hargs hparse]
    simp [hget]
  · unfold afterDeprecation
    split <;> rfl

/-- C5, at the arguments `-exclude-vulnerability=A,B` with no exclusion file. -/
theorem Parse_no_exclusion_file_witness :
    Parse CveListFlag.Set ["nancy", "-exclude-vulnerability=A,B"] CommandLine.initial
        FileSystem.empty ["-exclude-vulnerability=A,B"] =
      .returned { definedConfig with UseStdIn := true, CveList := { Cves := ["A", "B"] } } none
        { CommandLine.initial with defined := true } :=
  (Parse_no_exclusion_file CveListFlag.Set ["nancy", "-exclude-vulnerability=A,B"]
    CommandLine.initial FileSystem.empty ["-exclude-vulnerability=A,B"]
    ⟨{ definedConfig with UseStdIn := true, CveList := { Cves := ["A", "B"] } },
      "./.nancy-ignore", false⟩ []
    (by decide) (by decide) rfl rfl (Or.inl rfl)).2.1

/-- C6.  In IQ mode, whatever options of `iqCommand` the process arguments supply after `iq`,
in either syntax and in any order, `Parse` returns with no error, and each of the five IQ fields
holds the value supplied for its flag (the last one when the flag is repeated), or the declared
default when the flag is absent: `admin`, `admin123`, `http://localhost:8070`, the empty string
and `develop`. -/
theorem Parse_iq_values {φ : Type} (cveSet : CveSet) (prog : String) (os : List IQOption)
    (cl : CommandLine φ) (fs : FileSystem) (args : List String) (hfresh : cl.Fresh) :
    ∃ config cl1,
      Parse cveSet (prog :: "iq" :: (os.map IQOption.written).flatMap Written.tokens) cl fs args
        = .returned config none cl1 ∧
      config.IQ = true ∧
      config.User = supplied .user "admin" os ∧
      config.Token = supplied .token "admin123" os ∧
      config.Server = supplied .serverUrl "http://localhost:8070" os ∧
      config.Application = supplied .application "" os ∧
      config.Stage = supplied .stage "develop" os := by
  have hparse : FlagSet.parse iqCommand ((os.map IQOption.written).flatMap Written.tokens)
      definedConfig = .ok (storeAll os definedConfig) [] := by
    have hval : ∀ w ∈ os.map IQOption.written, ValidName w.name := by
      intro w hw
      obtain ⟨o, -, rfl⟩ := List.mem_map.1 hw
      exact iqOption_validName o
    have := parse_flatMap iqCommand (os.map IQOption.written) hval [] definedConfig
      _ (applyAll_iqOptions os definedConfig)
    simpa [FlagSet.parse] using this
  rw [Parse_iq_eq cveSet prog _ cl fs args hfresh, hparse]
  refine ⟨_, _, rfl, rfl, ?_, ?_, ?_, ?_, ?_⟩
  · exact storeAll_field .user os definedConfig
  · exact storeAll_field .token os definedConfig
  · exact storeAll_field .serverUrl os definedConfig
  · exact storeAll_field .application os definedConfig
  · exact storeAll_field .stage os definedConfig

/-- C6, at the process arguments `iq -application foo -stage release`: `Application` is `foo`,
`Stage` is `release`, and `User`, `Token` and `Server` keep their defaults. -/
theorem Parse_iq_values_witness :
    ∃ config cl1,
      Parse CveListFlag.Set ["nancy", "iq", "-application", "foo", "-stage", "release"]
        CommandLine.initial FileSystem.empty ["iq", "-application", "foo", "-stage", "release"]
        = .returned config none cl1 ∧
      config.IQ = true ∧ config.User = "admin" ∧ config.Token = "admin123" ∧
      config.Server = "http://localhost:8070" ∧ config.Application = "foo" ∧
      config.Stage = "release" :=
  Parse_iq_values CveListFlag.Set "nancy"
    [⟨.application, "foo", false, false⟩, ⟨.stage, "release", false, false⟩]
    CommandLine.initial FileSystem.empty ["iq", "-application", "foo", "-stage", "release"]
    (by decide)

/-- C7.  In primary mode, for every argument sequence made of primary flags, with one or two
dashes and in any order, followed by positional arguments, `Parse` returns, and: when the
sequence sets the deprecated flag `noColor` to true, the returned configuration has
`NoColor = true`, whatever it does with `no-color`; when `noColor` is absent or set to false,
`NoColor` is the value the sequence gives to `no-color`, false when it leaves `no-color` at its
default.  The value a sequence gives to a flag is that of its last occurrence: `-name` gives
true, `-name=text` the boolean the text spells. -/
theorem Parse_noColor {φ : Type} (cveSet : CveSet) (osArgs : List String)
    (cl : CommandLine φ)
    (fs : FileSystem) (os : List PrimaryOption) (tail rest : List String)
    (hmode : ¬ IQMode osArgs) (hfresh : cl.Fresh) (hargs : cl.args = [])
    (hcve : (exclusions cveSet os {}).isSome = true) (htail : Positionals tail rest) :
    ∃ config err cl1,
      Parse cveSet osArgs cl fs ((os.map PrimaryOption.written).flatMap Written.tokens ++ tail)
        = .returned config err cl1 ∧
      (setting .noColorDeprecated os = true → config.NoColor = true) ∧
      (setting .noColorDeprecated os = false → config.NoColor = setting .noColor os) := by
  obtain ⟨l, hl⟩ := Option.isSome_iff_exists.1 hcve
  obtain ⟨v1, happ, hfield⟩ := applyAll_primaryOptions cveSet cl os startVars cl.vars l hl
  have hval : ∀ w ∈ os.map PrimaryOption.written, ValidName w.name := by
    intro w hw
    obtain ⟨o, -, rfl⟩ := List.mem_map.1 hw
    exact primaryOption_validName o
  have hparse : FlagSet.parse (cl.formal cveSet)
      ((os.map PrimaryOption.written).flatMap Written.tokens ++ tail) (startVars, cl.vars) =
      .ok (v1, cl.vars) rest := by
    rw [parse_flatMap (cl.formal cveSet) _ hval tail _ _ happ]
    exact parse_positionals _ tail rest _ htail
  rw [Parse_primary_eq cveSet osArgs cl fs _ hmode hfresh hargs, hparse]
  obtain ⟨entries, he⟩ := getCVEExcludesFromFile_fields fs (afterDeprecation v1)
    v1.excludeVulnerabilityFilePath
  have hdep : v1.noColorDeprecated = setting .noColorDeprecated os :=
    hfield .noColorDeprecated
  have hnew : v1.config.NoColor = setting .noColor os := hfield .noColor
  refine ⟨_, _, _, rfl, ?_, ?_⟩
  · intro h
    simp only [he]
    simp [afterDeprecation, hdep, h]
  · intro h
    simp only [he]
    simp [afterDeprecation, hdep, h, hnew]

/-- C7, at three argument sequences: `-noColor` gives `NoColor = true`; `-noColor=false
--no-color=T lock` gives `NoColor = true`, the value of `no-color`; `-noColor=0` gives
`NoColor = false`, the default of `no-color`. -/
theorem Parse_noColor_witness :
    (∃ config err cl1, Parse CveListFlag.Set ["nancy", "-noColor"] CommandLine.initial
        FileSystem.empty ["-noColor"] = .returned config err cl1 ∧ config.NoColor = true) ∧
    (∃ config err cl1, Parse CveListFlag.Set ["nancy", "-noColor=false", "--no-color=T", "lock"]
        CommandLine.initial FileSystem.empty ["-noColor=false", "--no-color=T", "lock"]
          = .returned config err cl1 ∧ config.NoColor = true) ∧
    (∃ config err cl1, Parse CveListFlag.Set ["nancy", "-noColor=0"] CommandLine.initial
        FileSystem.empty ["-noColor=0"] = .returned config err cl1 ∧ config.NoColor = false) := by
  refine ⟨?_, ?_, ?_⟩
  · obtain ⟨config, err, cl1, h, htrue, -⟩ :=
      Parse_noColor CveListFlag.Set ["nancy", "-noColor"] CommandLine.initial FileSystem.empty
        [.switch false .noColorDeprecated] [] [] (by decide) (by decide) rfl rfl
        (Or.inl ⟨rfl, rfl⟩)
    exact ⟨config, err, cl1, h, htrue rfl⟩
  · obtain ⟨config, err, cl1, h, -, hfalse⟩ :=
      Parse_noColor CveListFlag.Set ["nancy", "-noColor=false", "--no-color=T", "lock"]
        CommandLine.initial FileSystem.empty
        [.assign false .noColorDeprecated false .lower, .assign true .noColor true .capitalLetter]
        ["lock"] ["lock"] (by decide) (by decide) rfl rfl
        (Or.inr (Or.inl ⟨"lock", [], rfl, Or.inr (by decide), rfl⟩))
    exact ⟨config, err, cl1, h, hfalse rfl⟩
  · obtain ⟨config, err, cl1, h, -, hfalse⟩ :=
      Parse_noColor CveListFlag.Set ["nancy", "-noColor=0"] CommandLine.initial
        FileSystem.empty [.assign false .noColorDeprecated false .digit] [] []
        (by decide) (by decide) rfl rfl (Or.inl ⟨rfl, rfl⟩)
    exact ⟨config, err, cl1, h, hfalse rfl⟩

/-- C8 (counterexample).  In a process started as `nancy mylockfile.lock -bogus`, `Parse`
returns with no error, although the token `-bogus` is an unrecognised flag (alone, it makes
`Parse` exit with status 2): the flags end at the first positional argument, and what follows
is not examined.  And with no arguments at all, which are not malformed, resolution still fails
when the exclusion file cannot be opened: `Parse` returns a non-nil error. -/
theorem Parse_flag_after_positional :
    Parse CveListFlag.Set ["nancy", "mylockfile.lock", "-bogus"] CommandLine.initial
        FileSystem.empty ["mylockfile.lock", "-bogus"] =
      .returned { definedConfig with UseStdIn := true } none
        { CommandLine.initial with defined := true, args := ["mylockfile.lock", "-bogus"] } ∧
    Parse CveListFlag.Set ["nancy", "-bogus"] CommandLine.initial FileSystem.empty ["-bogus"]
      = .exit 2 ∧
    Parse CveListFlag.Set ["nancy"] CommandLine.initial
        { stat := fun _ => .info false, openFile := fun _ => .error "permission denied" } [] =
      .returned { definedConfig with UseStdIn := true } (some "permission denied")
        { CommandLine.initial with defined := true } :=
  ⟨rfl, rfl, rfl⟩

/-- C8 (amended).  In a process in which `Parse` has not run, `Parse` ends in an argument error
(the usage text and `os.Exit`, no configuration) exactly when the arguments up to the first
positional argument or `--` are not all recognised flags of the active flag set, in a
well-formed syntax and with values the flags accept; the arguments after that point are not
examined.  In primary mode the active flag set is `flag.CommandLine` (the seven flags of `Parse`
and the flags the rest of the program has defined), the status is 2, and on well-formed
arguments `Parse` returns, with or without a file error; in IQ mode it is `iqCommand`, applied
to the tokens after `iq`, and on well-formed tokens `Parse` returns with no error. -/
theorem Parse_argument_error {φ : Type} (cveSet : CveSet) (osArgs : List String)
    (cl : CommandLine φ) (fs : FileSystem) (args : List String) (prog : String)
    (rest : List String) (hfresh : cl.Fresh) (hargs : cl.args = []) :
    (¬ IQMode osArgs →
      (WellFormed (cl.formal cveSet) (startVars, cl.vars) args →
        ∃ config err cl1, Parse cveSet osArgs cl fs args = .returned config err cl1) ∧
      (¬ WellFormed (cl.formal cveSet) (startVars, cl.vars) args →
        Parse cveSet osArgs cl fs args = .exit 2)) ∧
    ((WellFormed iqCommand definedConfig rest →
        ∃ config cl1, Parse cveSet (prog :: "iq" :: rest) cl fs args
          = .returned config none cl1) ∧
      (¬ WellFormed iqCommand definedConfig rest →
        ∃ code, Parse cveSet (prog :: "iq" :: rest) cl fs args = .exit code)) := by
  refine ⟨fun hmode => ⟨?_, ?_⟩, ?_, ?_⟩
  · intro hwf
    rw [Parse_primary_eq cveSet osArgs cl fs args hmode hfresh hargs]
    cases hp : FlagSet.parse (cl.formal cveSet) args (startVars, cl.vars) with
    | error e => exact absurd hwf ((parse_error_iff _ args (startVars, cl.vars)).1 ⟨e, hp⟩)
    | ok vars r => exact ⟨_, _, _, rfl⟩
  · intro hnot
    rw [Parse_primary_eq cveSet osArgs cl fs args hmode hfresh hargs]
    obtain ⟨e, he⟩ := (parse_error_iff _ args (startVars, cl.vars)).2 hnot
    rw [he]
  · intro hwf
    rw [Parse_iq_eq cveSet prog rest cl fs args hfresh]
    cases hp : FlagSet.parse iqCommand rest definedConfig with
    | error e => exact absurd hwf ((parse_error_iff _ rest definedConfig).1 ⟨e, hp⟩)
    | ok config r => exact ⟨_, _, rfl⟩
  · intro hnot
    rw [Parse_iq_eq cveSet prog rest cl fs args hfresh]
    obtain ⟨e, he⟩ := (parse_error_iff _ rest definedConfig).2 hnot
    rw [he]
    exact ⟨_, rfl⟩

/-- C8 (amended), in a process whose other code has defined a boolean flag `v`: the arguments
`-v -quiet mylockfile.lock` are well formed for `flag.CommandLine` and `Parse` returns; with the
process arguments `iq -quiet` it exits, `quiet` not being a flag of `iqCommand`. -/
theorem Parse_argument_error_witness :
    (∃ config err cl1, Parse CveListFlag.Set ["nancy", "-v", "-quiet", "mylockfile.lock"]
        verboseCommandLine FileSystem.empty ["-v", "-quiet", "mylockfile.lock"]
          = .returned config err cl1) ∧
      ∃ code, Parse CveListFlag.Set ["nancy", "iq", "-quiet"] verboseCommandLine
        FileSystem.empty ["-v", "-quiet", "mylockfile.lock"] = .exit code :=
  have h := Parse_argument_error CveListFlag.Set ["nancy", "-v", "-quiet", "mylockfile.lock"]
    verboseCommandLine FileSystem.empty ["-v", "-quiet", "mylockfile.lock"] "nancy" ["-quiet"]
    (by decide) rfl
  ⟨(h.1 (by decide)).1
      ⟨[.bare false "v", .bare false "quiet"], ["mylockfile.lock"], ["mylockfile.lock"], rfl,
        (by
          intro w hw
          simp only [List.mem_cons, List.mem_singleton, List.not_mem_nil, or_false] at hw
          rcases hw with rfl | rfl <;> exact ⟨_, _, rfl, by decide, by decide, by decide⟩),
        rfl, Or.inr (Or.inl ⟨"mylockfile.lock", [], rfl, Or.inr (by decide), rfl⟩)⟩,
    h.2.2 ((parse_error_iff iqCommand ["-quiet"] definedConfig).1 ⟨.notDefined, rfl⟩)⟩

/-- C9.  In primary mode, when the exclusion-file path is not reported missing and is not a
directory, and opening the file fails, or a read of it fails, or one of its lines reaches the
scanner's limit of `MaxScanTokenSize` bytes, `Parse` returns a non-nil error: the configuration
it returns never comes with a nil error. -/
theorem Parse_surfaces_file_error {φ : Type} (cveSet : CveSet) (osArgs : List String)
    (cl : CommandLine φ)
    (fs : FileSystem) (args : List String) (vars : PrimaryVars) (rest : List String)
    (hmode : ¬ IQMode osArgs) (hfresh : cl.Fresh) (hargs : cl.args = [])
    (hparse : FlagSet.parse (commandLineFlags cveSet) args startVars = .ok vars rest)
    (hstat : fs.stat vars.excludeVulnerabilityFilePath ≠ .error true ∧
      fs.stat vars.excludeVulnerabilityFilePath ≠ .info true)
    (hfail : (∃ e, fs.openFile vars.excludeVulnerabilityFilePath = .error e) ∨
      ∃ file, fs.openFile vars.excludeVulnerabilityFilePath = .ok file ∧
        (file.readErr ≠ none ∨ ∃ l ∈ textLines file.data, MaxScanTokenSize ≤ byteLen l)) :
    ∃ config e cl1, Parse cveSet osArgs cl fs args = .returned config (some e) cl1 := by
  rw [Parse_primary_of_parse cveSet osArgs cl fs args vars rest hmode hfresh hargs hparse]
  have hget : ∃ e, (getCVEExcludesFromFile fs (afterDeprecation vars)
      vars.excludeVulnerabilityFilePath).2 = some e := by
    unfold getCVEExcludesFromFile
    split
    · exact absurd (by assumption) hstat.2
    · exact absurd (by assumption) hstat.1
    · rcases hfail with ⟨e, he⟩ | ⟨file, hfile, hbad⟩
      · exact ⟨e, by simp [he]⟩
      · simp only [hfile]
        have hiff := scan_err_none_iff file.readErr file.data [] (by simp) (by decide)
        simp only [List.nil_append] at hiff
        cases herr : (Scanner.run file).err with
        | some e => exact ⟨e, rfl⟩
        | none =>
          have := hiff.1 herr
          rcases hbad with h | ⟨l, hl, hlen⟩
          · exact absurd this.1 h
          · have := this.2 l hl
            omega
  obtain ⟨e, he⟩ := hget
  refine ⟨(getCVEExcludesFromFile fs (afterDeprecation vars)
    vars.excludeVulnerabilityFilePath).1, e, { cl with defined := true, args := rest }, ?_⟩
  simp only [he]

/-- C9, at an exclusion file that cannot be opened. -/
theorem Parse_surfaces_file_error_witness :
    ∃ config e cl1, Parse CveListFlag.Set ["nancy"] CommandLine.initial
      { stat := fun _ => .info false, openFile := fun _ => .error "permission denied" } [] =
        .returned config (some e) cl1 :=
  Parse_surfaces_file_error CveListFlag.Set ["nancy"] CommandLine.initial
    { stat := fun _ => .info false, openFile := fun _ => .error "permission denied" } []
    startVars [] (by decide) (by decide) rfl rfl ⟨by decide, by decide⟩
    (Or.inl ⟨"permission denied", rfl⟩)

/-- C10 (counterexample).  A process started as `nancy` calls `Parse` with no arguments and no
exclusion file: the call returns, leaving the seven flags defined on `flag.CommandLine`.  A
second call with the same arguments and the same files, made in that state, panics.  And the
same call made first in a process started as `nancy iq` returns another configuration
(`IQ = true`): the result depends on `os.Args`, not only on the arguments passed and the
files. -/
theorem Parse_twice :
    Parse CveListFlag.Set ["nancy"] CommandLine.initial FileSystem.empty [] =
        .returned { definedConfig with UseStdIn := true } none
          { CommandLine.initial with defined := true } ∧
      Parse CveListFlag.Set ["nancy"] { CommandLine.initial with defined := true }
        FileSystem.empty [] = .panic ∧
      Parse CveListFlag.Set ["nancy", "iq"] CommandLine.initial FileSystem.empty [] =
        .returned { definedConfig with IQ := true, UseStdIn := true } none
          { CommandLine.initial with defined := true } :=
  ⟨rfl, rfl, rfl⟩

/-- C10 (amended).  The outcome of `Parse` is a function of the arguments passed, of `os.Args`,
of the state of `flag.CommandLine` and of the file system, and it depends on the file system
only through what `os.Stat` and `os.Open` give at the path of the exclusion file: two file
systems that agree there give the same outcome.  `Parse` does carry state from one call to the
next: a call that returns leaves its flags defined on `flag.CommandLine`, and every later call
in that process panics, whatever its arguments. -/
theorem Parse_process_state {φ : Type} (cveSet : CveSet) (osArgs : List String)
    (cl : CommandLine φ) (fs fs2 : FileSystem) (args : List String)
    (hfs : ∀ v vars rest, v.1.excludeVulnerabilityFilePath = "./.nancy-ignore" →
      FlagSet.parse (cl.formal cveSet) args v = .ok vars rest →
      fs2.stat vars.1.excludeVulnerabilityFilePath
        = fs.stat vars.1.excludeVulnerabilityFilePath ∧
      fs2.openFile vars.1.excludeVulnerabilityFilePath
        = fs.openFile vars.1.excludeVulnerabilityFilePath) :
    Parse cveSet osArgs cl fs2 args = Parse cveSet osArgs cl fs args ∧
      ∀ config err cl1, Parse cveSet osArgs cl fs args = .returned config err cl1 →
        ∀ (cveSet3 : CveSet) (osArgs3 : List String) (fs3 : FileSystem) (args3 : List String),
          Parse cveSet3 osArgs3 cl1 fs3 args3 = .panic := by
  constructor
  · unfold Parse
    cases hd : defineFlags cl with
    | none => rfl
    | some cl0 =>
      have hcl0 := defineFlags_eq_some cl cl0 hd
      have hformal : cl0.formal cveSet = cl.formal cveSet := by rw [hcl0]; rfl
      simp only
      by_cases hiq : osArgs.length > 1 ∧ osArgs[1]? = some "iq"
      · simp only [hiq, and_self, if_true]
      · simp only [hiq, if_false, hformal]
        generalize (if cl0.args.length = 0 then some { definedConfig with UseStdIn := true }
          else args.getLast?.map fun last => { definedConfig with Path := last }) = indexed
        cases indexed with
        | none => rfl
        | some c =>
          simp only
          cases hp : FlagSet.parse (cl.formal cveSet) args
              (⟨c, "./.nancy-ignore", false⟩, cl0.vars) with
          | error e => rfl
          | ok vars rest =>
            obtain ⟨h1, h2⟩ := hfs _ vars rest rfl hp
            simp only [getCVEExcludesFromFile_congr fs fs2 _ _ h1 h2]
  · intro config err cl1 h cveSet3 osArgs3 fs3 args3
    have hdef := Parse_returned_defined cveSet osArgs cl fs args config err cl1 h
    simp [Parse, defineFlags_of_defined cl1 hdef]

/-- C10 (amended), at a process started as `nancy -quiet`: a file system that differs from the
empty one only away from `./.nancy-ignore` gives the same outcome, and after the call every
further call panics. -/
theorem Parse_process_state_witness :
    Parse CveListFlag.Set ["nancy", "-quiet"] CommandLine.initial
        (FileSystem.single "elsewhere" { data := ['X'] }) ["-quiet"] =
      Parse CveListFlag.Set ["nancy", "-quiet"] CommandLine.initial FileSystem.empty ["-quiet"] ∧
    Parse CveListFlag.Set ["nancy", "-quiet"] { CommandLine.initial with defined := true }
      FileSystem.empty ["-quiet"] = .panic :=
  have h := Parse_process_state CveListFlag.Set ["nancy", "-quiet"] CommandLine.initial
    FileSystem.empty (FileSystem.single "elsewhere" { data := ['X'] }) ["-quiet"]
    (by
      intro v vars rest hv hp
      have hq : FlagSet.parse (CommandLine.initial.formal CveListFlag.Set) ["-quiet"] v =
          .ok (⟨{ v.1.config with Quiet := true }, v.1.excludeVulnerabilityFilePath,
            v.1.noColorDeprecated⟩, v.2) [] := rfl
      rw [hq] at hp
      simp only [ParseResult.ok.injEq] at hp
      rw [← hp.1]
      simp only [hv]
      exact ⟨rfl, rfl⟩)
  ⟨h.1, h.2 { definedConfig with UseStdIn := true, Quiet := true } none
    { CommandLine.initial with defined := true } rfl CveListFlag.Set ["nancy", "-quiet"]
    FileSystem.empty ["-quiet"]⟩

end Nancy
